import Mathlib

/-!
Shallow embedding of the balance-delta reconciliation engine of the
`parseTransaction` repository (files `src/index.ts` and `src/versioned.ts`),
together with theorems settling the frozen claims about it.

External collaborators (RPC connection, account-layout codec, metadata HTTP
service, transaction wire codec) are modelled as function-valued inputs; JS
`Map`s are modelled as association lists with insert-or-update preserving
first-insertion order (the iteration order of a JS `Map`); JS numbers that hold
token amounts / lamports are modelled as `Int`; the float division producing the
display `amount` field is modelled over `Rat`; a JS `throw` that a pipeline
propagates is modelled with `Except`; `null`/`undefined` values are `Option`.
-/

/-- Wrapped-native (wrapped SOL) mint identifier, `SOL_MINT` in the source. -/
def SOL_MINT : String := "So11111111111111111111111111111111111111112"

/-- Token program id (`TOKEN_PROGRAM_ID.toBase58()` in the source). -/
def TOKEN_PROGRAM_ID : String := "TokenkegQfeZyiNwAJbNbGKPFXCWuBvf9Ss623VQ5DA"

/-- Byte length of a canonical token account (`ACCOUNT_SIZE`). -/
def ACCOUNT_SIZE : Nat := 165

/-- Lamports per SOL (`LAMPORTS_PER_SOL`). -/
def LAMPORTS_PER_SOL : Nat := 1000000000

/-- Decoded token-account record: result of `AccountLayout.decode` with the
`mint`, `amount` and `owner` fields read off, as the source does. -/
structure TokenRecord where
  mint : String
  amount : Int
  owner : String
deriving Repr, DecidableEq

/-- Result of a metadata lookup (`fetchTokenInfo`'s return shape):
`{ logouri, decimals, symbol?, name? }`. -/
structure TokenInfo where
  logouri : String
  decimals : Nat
  symbol : Option String
  name : Option String
deriving Repr, DecidableEq

/-- The `TokenAsset` output unit of `versioned.ts` / the legacy pipeline of
`index.ts`.  `amount` is `balanceChange / 10 ** decimals`, modelled in `Rat`. -/
structure TokenAsset where
  mint : String
  balanceChange : Int
  amount : Rat
  logouri : String
  decimals : Nat
  symbol : Option String
  name : Option String
deriving Repr, DecidableEq

/-- The `WalletBalanceChange` output record.  The `solChange` field is present
on some construction sites and absent on others, hence `Option`. -/
structure WalletBalanceChange where
  wallet : String
  buying : List TokenAsset
  selling : List TokenAsset
  solChange : Option Int
deriving Repr, DecidableEq

/-- Pre-simulation account info, i.e. what `connection.getAccountInfo` returns
for an existing account.  `decoded` stands for the external
`AccountLayout.decode` of the account's data; the source only reads it after
checking `owner` and `dataLength`, so its value is irrelevant otherwise. -/
structure PreAccountInfo where
  lamports : Int
  owner : String
  dataLength : Nat
  decoded : TokenRecord
deriving Repr, DecidableEq

/-- One per-account entry of the simulation response
(`simulationResult.value.accounts[i]`).  `decoded` is `some r` exactly when
`data[0]` is present and `AccountLayout.decode` of its base64 bytes succeeds
(the source wraps that decode in try/catch). -/
structure PostAccount where
  lamports : Int
  owner : String
  dataLength : Nat
  decoded : Option TokenRecord
deriving Repr, DecidableEq

/-- The parts of `simulationResult.value` that the pipelines read: the optional
per-account post-state array and whether `err === null`. -/
structure SimAccountsResult where
  accounts : Option (List (Option PostAccount))
  errIsNull : Bool

/-- JS `Map.prototype.get`, on an association list in insertion order. -/
def mapGet (k : String) : List (String × α) → Option α
  | [] => none
  | (k₁, v) :: rest => if k₁ = k then some v else mapGet k rest

/-- JS `Map.prototype.set`: update in place if the key exists (keeping its
position, as a JS `Map` does), otherwise append at the end. -/
def mapSet (k : String) (v : α) : List (String × α) → List (String × α)
  | [] => [(k, v)]
  | (k₁, v₁) :: rest => if k₁ = k then (k₁, v) :: rest else (k₁, v₁) :: mapSet k v rest

/-- Insert-or-update with access to the previous value (`none` if absent);
models the JS `m.set(k, f(m.get(k)))` idiom. -/
def mapUpdate (k : String) (f : Option α → α) : List (String × α) → List (String × α)
  | [] => [(k, f none)]
  | (k₁, v₁) :: rest => if k₁ = k then (k₁, f (some v₁)) :: rest else (k₁, v₁) :: mapUpdate k f rest

/-- Helper for `dedupFirst`: drop elements already seen. -/
def dedupFirstAux (seen : List String) : List String → List String
  | [] => []
  | x :: xs => if x ∈ seen then dedupFirstAux seen xs else x :: dedupFirstAux (x :: seen) xs

/-- JS `[...new Set(xs)]`: deduplicate keeping the first occurrence of each
element, preserving order. -/
def dedupFirst (l : List String) : List String := dedupFirstAux [] l

/-- Character-level `startsWith` (JS `String.prototype.startsWith`), written
over character lists so that it evaluates by kernel reduction. -/
def strStartsWith (s p : String) : Bool := List.isPrefixOf p.toList s.toList

/-- Sum of the `balanceChange` fields of a list of assets. -/
def bcSum (l : List TokenAsset) : Int := (l.map (·.balanceChange)).sum

/-!  ### The versioned pipeline (`src/versioned.ts`, `simulateVersionedTransactionWithBalanceChanges`)  -/

/-- Inputs of the versioned pipeline.  `staticAccountKeys` is the decoded
transaction's static key list (base58 strings); `getAccountInfo` is the RPC
pre-state collaborator (`none` models a `null` response); `fetchInfo` is the
metadata collaborator as seen by the pipeline (see `fetchTokenInfo` below for
its cache behaviour). -/
structure VersionedInput where
  staticAccountKeys : List String
  getAccountInfo : String → Option PreAccountInfo
  simResult : SimAccountsResult
  fetchInfo : String → TokenInfo

/-- The target wallet: `versionedTransaction.message.staticAccountKeys[0]`. -/
def targetWalletOf (inp : VersionedInput) : String := inp.staticAccountKeys.headD ""

/-- The deduplicated account list `uniqueAccountsStr`. -/
def uniqueAccountsOf (inp : VersionedInput) : List String := dedupFirst inp.staticAccountKeys

/-- Pre-snapshot collection of `versioned.ts` (lines 96–119): for each account
set `solPreBalances[addr] = accountInfo?.lamports || 0`, and record a token
record iff the account is owned by the token program with canonical size. -/
def collectPreV (g : String → Option PreAccountInfo) :
    List String → List (String × Int) × List (String × TokenRecord)
  | [] => ([], [])
  | addr :: rest =>
    let lam : Int := match g addr with
      | some ai => ai.lamports
      | none => 0
    let tok : List (String × TokenRecord) := match g addr with
      | some ai =>
        if ai.owner = TOKEN_PROGRAM_ID ∧ ai.dataLength = ACCOUNT_SIZE then
          [(addr, ai.decoded)]
        else []
      | none => []
    let rec' := collectPreV g rest
    ((addr, lam) :: rec'.1, tok ++ rec'.2)

/-- Post-snapshot collection of `versioned.ts` (lines 150–175): positional
correlation `postAccount = postSimAccounts[index]`; always record
`postAccount?.lamports || 0`; record a token record only for addresses already
tracked in the pre-snapshot, owned by the token program, whose data decodes. -/
def collectPostV (preBal : List (String × TokenRecord)) (simAccs : List (Option PostAccount)) :
    List String → Nat → List (String × Int) × List (String × TokenRecord)
  | [], _ => ([], [])
  | addr :: rest, i =>
    let postAccount : Option PostAccount := (simAccs.getD i none)
    let lam : Int := match postAccount with
      | some pa => pa.lamports
      | none => 0
    let tok : List (String × TokenRecord) := match postAccount with
      | some pa =>
        if (mapGet addr preBal).isSome ∧ pa.owner = TOKEN_PROGRAM_ID then
          match pa.decoded with
          | some tr => [(addr, tr)]
          | none => []
        else []
      | none => []
    let rec' := collectPostV preBal simAccs rest (i + 1)
    ((addr, lam) :: rec'.1, tok ++ rec'.2)

/-- Direct native delta of the target wallet (`versioned.ts` lines 184–189):
nonzero only if the wallet is present in both lamport maps. -/
def targetSolChangeV (solPre solPost : List (String × Int)) (w : String) : Int :=
  if (mapGet w solPre).isSome ∧ (mapGet w solPost).isSome then
    (mapGet w solPost).getD 0 - (mapGet w solPre).getD 0
  else 0

/-- Per-account token deltas of `versioned.ts` (lines 192–222): iterate the
pre-snapshot in insertion order; for accounts owned by the target wallet that
also appear in the post-snapshot, push `balanceChange = post - pre` (when
nonzero) into `buying` or `selling` by sign.  Note: one entry per token
account — there is no per-mint aggregation in this pipeline. -/
def tokenDeltasV (f : String → TokenInfo) (targetWallet : String)
    (postBal : List (String × TokenRecord)) :
    List (String × TokenRecord) → List TokenAsset × List TokenAsset
  | [] => ([], [])
  | (addr, preInfo) :: rest =>
    let rec' := tokenDeltasV f targetWallet postBal rest
    match mapGet addr postBal with
    | some postInfo =>
      if preInfo.owner = targetWallet then
        let bc : Int := postInfo.amount - preInfo.amount
        if bc ≠ 0 then
          let info := f preInfo.mint
          let asset : TokenAsset :=
            { mint := preInfo.mint
              balanceChange := bc
              amount := (bc : Rat) / (10 : Rat) ^ info.decimals
              logouri := info.logouri
              decimals := info.decimals
              symbol := info.symbol
              name := info.name }
          if bc > 0 then (asset :: rec'.1, rec'.2) else (rec'.1, asset :: rec'.2)
        else rec'
      else rec'
    | none => rec'

/-- Remove the first element satisfying `p`, returning it (if any) and the
remaining list; models `findIndex` followed by `splice(i, 1)`. -/
def extractFirst (p : α → Bool) : List α → Option α × List α
  | [] => (none, [])
  | x :: xs =>
    if p x then (some x, xs)
    else
      let rec' := extractFirst p xs
      (rec'.1, x :: rec'.2)

/-- Boolean test `asset.mint === SOL_MINT`. -/
def isSolAsset (a : TokenAsset) : Bool := a.mint = SOL_MINT

/-- The combined native figure `totalSolChange = targetWalletSolChange +
wrappedSolChange`, where `wrappedSolChange` collects the first wrapped-SOL
entry of `buying` and the first of `selling` (lines 231–245). -/
def mergedSolTotal (direct : Int) (buying selling : List TokenAsset) : Int :=
  direct + (((extractFirst isSolAsset buying).1.map (·.balanceChange)).getD 0)
    + (((extractFirst isSolAsset selling).1.map (·.balanceChange)).getD 0)

/-- Native/wrapped merge of `versioned.ts` (lines 224–271): splice out the
first wrapped-SOL entry of each list, add their changes to the direct native
delta, and push the combined figure (if nonzero) as one SOL asset — with
`Math.abs(totalSolChange) * -1` as the stored change on the selling side. -/
def mergeNativeSol (f : String → TokenInfo) (directSolChange : Int)
    (buying selling : List TokenAsset) : List TokenAsset × List TokenAsset :=
  let eb := extractFirst isSolAsset buying
  let es := extractFirst isSolAsset selling
  let totalSolChange := mergedSolTotal directSolChange buying selling
  if totalSolChange ≠ 0 then
    let info := f SOL_MINT
    let solAsset : TokenAsset :=
      { mint := SOL_MINT
        balanceChange := totalSolChange
        amount := (totalSolChange : Rat) / (10 : Rat) ^ info.decimals
        logouri := info.logouri
        decimals := info.decimals
        symbol := info.symbol
        name := info.name }
    if totalSolChange > 0 then (eb.2 ++ [solAsset], es.2)
    else (eb.2, es.2 ++ [{ solAsset with balanceChange := -(totalSolChange.natAbs : Int) }])
  else (eb.2, es.2)

/-- Pre-snapshot stage of the versioned pipeline, as a named stage. -/
def versionedPre (inp : VersionedInput) : List (String × Int) × List (String × TokenRecord) :=
  collectPreV inp.getAccountInfo (uniqueAccountsOf inp)

/-- Post-snapshot stage of the versioned pipeline for a returned account
array `accs`. -/
def versionedPost (inp : VersionedInput) (accs : List (Option PostAccount)) :
    List (String × Int) × List (String × TokenRecord) :=
  collectPostV (versionedPre inp).2 accs (uniqueAccountsOf inp) 0

/-- Direct native delta stage (`targetWalletSolChange`). -/
def versionedDirectSol (inp : VersionedInput) (accs : List (Option PostAccount)) : Int :=
  targetSolChangeV (versionedPre inp).1 (versionedPost inp accs).1 (targetWalletOf inp)

/-- Raw per-account token delta stage (`buying`/`selling` before the merge). -/
def versionedRawDeltas (inp : VersionedInput) (accs : List (Option PostAccount)) :
    List TokenAsset × List TokenAsset :=
  tokenDeltasV inp.fetchInfo (targetWalletOf inp) (versionedPost inp accs).2 (versionedPre inp).2

/-- The combined native figure of a versioned run. -/
def versionedMergedSolTotal (inp : VersionedInput) (accs : List (Option PostAccount)) : Int :=
  mergedSolTotal (versionedDirectSol inp accs)
    (versionedRawDeltas inp accs).1 (versionedRawDeltas inp accs).2

/-- Output shape of the versioned pipeline. -/
structure VersionedOutput where
  walletBalanceChange : WalletBalanceChange
  success : Bool
deriving Repr, DecidableEq

/-- The versioned pipeline `simulateVersionedTransactionWithBalanceChanges`
(`versioned.ts` lines 76–285).  A missing `accounts` array in the simulation
response throws (modelled with `Except.error`); otherwise the result packages
the merged buying/selling lists with `solChange: 0` and
`success = (err === null)`. -/
def simulateVersionedTransactionWithBalanceChanges (inp : VersionedInput) :
    Except String VersionedOutput :=
  match inp.simResult.accounts with
  | none =>
    .error "Simulation did not return account data. This may be due to an error in the transaction."
  | some accs =>
    let merged := mergeNativeSol inp.fetchInfo (versionedDirectSol inp accs)
      (versionedRawDeltas inp accs).1 (versionedRawDeltas inp accs).2
    .ok
      { walletBalanceChange :=
          { wallet := targetWalletOf inp
            buying := merged.1
            selling := merged.2
            solChange := some 0 }
        success := inp.simResult.errIsNull }

/-!  ### The legacy pipeline (`src/index.ts` lines 21–191, `simulateTransactionWithBalanceChanges`)  -/

/-- Inputs of the legacy pipeline.  `primaryWallet` is
`transaction.signatures[0].publicKey`; `instructionAccounts` is the flatMap of
every instruction's key list (before deduplication). -/
structure LegacyInput where
  primaryWallet : String
  instructionAccounts : List String
  getAccountInfo : String → Option PreAccountInfo
  simResult : SimAccountsResult
  fetchInfo : String → TokenInfo

/-- The deduplicated account list of the legacy pipeline. -/
def uniqueAccountsOfL (inp : LegacyInput) : List String := dedupFirst inp.instructionAccounts

/-- Pre-snapshot collection of the legacy pipeline (`index.ts` lines 44–66).
Unlike the versioned variant, a `null` account-info response records no lamport
entry at all (`if (accountInfo) preSolBalances.set(...)`). -/
def collectPreL (g : String → Option PreAccountInfo) :
    List String → List (String × Int) × List (String × TokenRecord)
  | [] => ([], [])
  | addr :: rest =>
    let sol : List (String × Int) := match g addr with
      | some ai => [(addr, ai.lamports)]
      | none => []
    let tok : List (String × TokenRecord) := match g addr with
      | some ai =>
        if ai.owner = TOKEN_PROGRAM_ID ∧ ai.dataLength = ACCOUNT_SIZE then
          [(addr, ai.decoded)]
        else []
      | none => []
    let rec' := collectPreL g rest
    (sol ++ rec'.1, tok ++ rec'.2)

/-- Post-snapshot collection of the legacy pipeline (`index.ts` lines 89–118):
iterate the simulation response array; skip `null` entries; correlate
positionally with `uniqueAccounts[i]` (an index beyond the enumerated list
would produce the JS key `undefined`, modelled as a skip); record lamports for
every non-null entry, and a token record when the owner is the token program
and the canonically sized data decodes. -/
def collectPostL (uniq : List String) :
    List (Option PostAccount) → Nat → List (String × Int) × List (String × TokenRecord)
  | [], _ => ([], [])
  | acc :: rest, i =>
    let rec' := collectPostL uniq rest (i + 1)
    match acc with
    | none => rec'
    | some a =>
      match uniq.get? i with
      | none => rec'
      | some addr =>
        let tok : List (String × TokenRecord) :=
          if a.owner = TOKEN_PROGRAM_ID then
            match a.decoded with
            | some tr => if a.dataLength = ACCOUNT_SIZE then [(addr, tr)] else []
            | none => []
          else []
        ((addr, a.lamports) :: rec'.1, tok ++ rec'.2)

/-- Step of the legacy per-(wallet, mint) aggregation (`index.ts` lines
140–149): `walletChanges.get(owner)` (created if absent) gets
`mint ↦ current + balanceChange`. -/
def addWalletChange (owner mint : String) (bc : Int)
    (m : List (String × List (String × Int))) : List (String × List (String × Int)) :=
  mapUpdate owner (fun inner => mapUpdate mint (fun cur => cur.getD 0 + bc) (inner.getD [])) m

/-- Legacy aggregation by wallet and mint (`index.ts` lines 131–151): walk the
pre-snapshot, and for every account also present in the post-snapshot with a
nonzero change, accumulate the change under (pre owner, pre mint). -/
def walletChangesOf (postBal : List (String × TokenRecord)) :
    List (String × TokenRecord) → List (String × List (String × Int)) →
    List (String × List (String × Int))
  | [], m => m
  | (addr, preInfo) :: rest, m =>
    let m₁ := match mapGet addr postBal with
      | some postInfo =>
        let bc := postInfo.amount - preInfo.amount
        if bc ≠ 0 then addWalletChange preInfo.owner preInfo.mint bc m else m
      | none => m
    walletChangesOf postBal rest m₁

/-- Legacy emission (`index.ts` lines 156–177): one `TokenAsset` per aggregated
mint total, pushed into `buying` when the total is positive and into `selling`
otherwise (note: a zero total lands in `selling`). -/
def emitFromTotals (f : String → TokenInfo) :
    List (String × Int) → List TokenAsset × List TokenAsset
  | [] => ([], [])
  | (mint, bc) :: rest =>
    let info := f mint
    let asset : TokenAsset :=
      { mint := mint
        balanceChange := bc
        amount := (bc : Rat) / (10 : Rat) ^ info.decimals
        logouri := info.logouri
        decimals := info.decimals
        symbol := info.symbol
        name := info.name }
    let rec' := emitFromTotals f rest
    if bc > 0 then (asset :: rec'.1, rec'.2) else (rec'.1, asset :: rec'.2)

/-- Output shape of the legacy pipeline (it never throws after decoding). -/
structure LegacyOutput where
  walletBalanceChange : WalletBalanceChange
  success : Bool
deriving Repr, DecidableEq

/-- Pre-snapshot stage of the legacy pipeline, as a named stage. -/
def legacyPre (inp : LegacyInput) : List (String × Int) × List (String × TokenRecord) :=
  collectPreL inp.getAccountInfo (uniqueAccountsOfL inp)

/-- Post-snapshot stage of the legacy pipeline. -/
def legacyPost (inp : LegacyInput) (accs : List (Option PostAccount)) :
    List (String × Int) × List (String × TokenRecord) :=
  collectPostL (uniqueAccountsOfL inp) accs 0

/-- The aggregated per-mint totals of the primary wallet in a legacy run. -/
def legacyPrimaryTotals (inp : LegacyInput) (accs : List (Option PostAccount)) :
    Option (List (String × Int)) :=
  mapGet inp.primaryWallet (walletChangesOf (legacyPost inp accs).2 (legacyPre inp).2 [])

/-- The native delta the legacy pipeline computes and then drops (`index.ts`
lines 120–124: `solChange = postSol - preSol`, with `|| 0` defaults; the
variable is never written into the returned output). -/
def legacySolChange (inp : LegacyInput) : Int :=
  match inp.simResult.accounts with
  | none => 0
  | some accs =>
    ((mapGet inp.primaryWallet (legacyPost inp accs).1).getD 0)
      - ((mapGet inp.primaryWallet (legacyPre inp).1).getD 0)

/-- The legacy pipeline `simulateTransactionWithBalanceChanges` (`index.ts`
lines 21–191).  When the simulation response has no `accounts` array it
returns a structured result with empty lists, `solChange: 0` and
`success: false` (lines 72–83) — it does not throw.  The final output carries
no `solChange` field and no native entry. -/
def simulateTransactionWithBalanceChanges (inp : LegacyInput) : LegacyOutput :=
  match inp.simResult.accounts with
  | none =>
    { walletBalanceChange :=
        { wallet := inp.primaryWallet
          buying := []
          selling := []
          solChange := some 0 }
      success := false }
  | some accs =>
    let emitted := match legacyPrimaryTotals inp accs with
      | some totals => emitFromTotals inp.fetchInfo totals
      | none => ([], [])
    { walletBalanceChange :=
        { wallet := inp.primaryWallet
          buying := emitted.1
          selling := emitted.2
          solChange := none }
      success := inp.simResult.errIsNull }

/-!  ### Metadata lookup with cache (`versioned.ts` lines 31–72, `fetchTokenInfo`)  -/

/-- Shape of a Jupiter token-metadata HTTP response body (`response.data`);
each field may be absent (JS `undefined`, defaulted with `|| ...`). -/
structure JupResponse where
  logoURI : Option String
  decimals : Option Nat
  symbol : Option String
  name : Option String
deriving Repr, DecidableEq

/-- The static special case for the native-currency pseudo-mint. -/
def solStaticTokenInfo : TokenInfo :=
  { logouri := "https://raw.githubusercontent.com/solana-labs/token-list/main/assets/mainnet/So11111111111111111111111111111111111111112/logo.png"
    decimals := 9
    symbol := some "SOL"
    name := some "Wrapped SOL" }

/-- The value cached and returned on a successful remote lookup. -/
def tokenInfoOfResponse (r : JupResponse) : TokenInfo :=
  { logouri := r.logoURI.getD ""
    decimals := r.decimals.getD 0
    symbol := some (r.symbol.getD "")
    name := some (r.name.getD "") }

/-- The defaults returned on a failed remote lookup (`catch` branch):
`{ logouri: '', decimals: 0, symbol: mint.slice(0,4) + '...' + mint.slice(-4) }`,
with no `name` field. -/
def defaultTokenInfoFor (mint : String) : TokenInfo :=
  { logouri := ""
    decimals := 0
    symbol := some (String.mk (mint.toList.take 4) ++ "..." ++
      String.mk (mint.toList.drop (mint.toList.length - 4)))
    name := none }

/-- The metadata lookup `fetchTokenInfo` with its module-level cache threaded
explicitly.  `remote` models the Jupiter HTTP collaborator (`none` = the
request throws).  Returns the result together with the updated cache: the
static SOL case bypasses the cache, a cache hit is returned as is, a successful
remote lookup is cached, and a failure returns defaults without caching. -/
def fetchTokenInfo (remote : String → Option JupResponse)
    (cache : List (String × TokenInfo)) (mintAddress : String) :
    TokenInfo × List (String × TokenInfo) :=
  if mintAddress = SOL_MINT then (solStaticTokenInfo, cache)
  else
    match mapGet mintAddress cache with
    | some info => (info, cache)
    | none =>
      match remote mintAddress with
      | some r =>
        let info := tokenInfoOfResponse r
        (info, mapSet mintAddress info cache)
      | none => (defaultTokenInfoFor mintAddress, cache)

/-!  ### The alternative legacy variant (`src/index.ts` lines 248–464)

The second `simulateTransactionWithBalanceChanges` in `index.ts` keys its
snapshot maps by composite strings (`SOL:wallet` / `mint:account`), keeps only
accounts of the first signer, aggregates per mint, and emits
`tokensBought`/`tokensSold` entries whose `rawAmount` for sold entries is
`Math.abs(difference)` — a positive number. -/

/-- Output entry of the alternative variant (`tokensBought`/`tokensSold`). -/
structure SoldBoughtEntry where
  mint : String
  symbol : Option String
  amount : Rat
  rawAmount : Int
  decimals : Nat
  logouri : String
deriving Repr, DecidableEq

/-- Result of the alternative variant: either the early return
`{ success }` when the simulation response has no accounts array (line 312), or
the full `{ wallet, tokensSold, tokensBought, success }` record. -/
inductive TransactResult
  | noAccountData (success : Bool)
  | result (wallet : String) (tokensSold tokensBought : List SoldBoughtEntry) (success : Bool)
deriving Repr, DecidableEq

/-- Inputs of the alternative variant.  `getBalance` models
`connection.getBalance` (`none` = the call throws, caught and skipped). -/
structure TransactInput where
  firstSignerWallet : String
  instructionAccounts : List String
  getBalance : String → Option Int
  getAccountInfo : String → Option PreAccountInfo
  simResult : SimAccountsResult
  fetchInfo : String → TokenInfo

/-- Token part of the variant's pre-snapshot (lines 284–304): only token
accounts owned by the first signer, keyed `mint:account`. -/
def transactPreTokens (w : String) (g : String → Option PreAccountInfo) :
    List String → List (String × TokenRecord)
  | [] => []
  | addr :: rest =>
    let tok : List (String × TokenRecord) := match g addr with
      | some ai =>
        if ai.owner = TOKEN_PROGRAM_ID ∧ ai.dataLength = ACCOUNT_SIZE ∧ ai.decoded.owner = w then
          [(ai.decoded.mint ++ ":" ++ addr, ai.decoded)]
        else []
      | none => []
    tok ++ transactPreTokens w g rest

/-- The variant's pre-snapshot map (lines 267–304): first the signer's native
balance under the key `SOL:wallet` (skipped if `getBalance` throws), then the
owned token accounts. -/
def transactPreBalances (inp : TransactInput) (uniq : List String) :
    List (String × TokenRecord) :=
  (match inp.getBalance inp.firstSignerWallet with
   | some b => [("SOL:" ++ inp.firstSignerWallet, ⟨SOL_MINT, b, inp.firstSignerWallet⟩)]
   | none => []) ++ transactPreTokens inp.firstSignerWallet inp.getAccountInfo uniq

/-- Token part of the variant's post-snapshot (lines 334–363): same shape as
the pre side, read positionally from the simulation response. -/
def transactPostTokens (w : String) (uniq : List String) :
    List (Option PostAccount) → Nat → List (String × TokenRecord)
  | [], _ => []
  | acc :: rest, i =>
    let rec' := transactPostTokens w uniq rest (i + 1)
    match acc with
    | none => rec'
    | some a =>
      match uniq.get? i with
      | none => rec'
      | some addr =>
        let tok : List (String × TokenRecord) :=
          if a.owner = TOKEN_PROGRAM_ID then
            match a.decoded with
            | some tr =>
              if a.dataLength = ACCOUNT_SIZE ∧ tr.owner = w then
                [(tr.mint ++ ":" ++ addr, tr)]
              else []
            | none => []
          else []
        tok ++ rec'

/-- The variant's post-snapshot map (lines 316–363): the signer's post native
balance is taken from the simulation response at index 0 (positional, line
320), then the owned token accounts. -/
def transactPostBalances (inp : TransactInput) (uniq : List String)
    (accs : List (Option PostAccount)) : List (String × TokenRecord) :=
  (match accs.getD 0 none with
   | some a => [("SOL:" ++ inp.firstSignerWallet, ⟨SOL_MINT, a.lamports, inp.firstSignerWallet⟩)]
   | none => []) ++ transactPostTokens inp.firstSignerWallet uniq accs 0

/-- Per-mint totals (lines 400–420): group a snapshot map by `value.mint`,
skipping entries whose key starts with `SOL:`. -/
def mintTotals (m : List (String × TokenRecord)) : List (String × Int) :=
  m.foldl
    (fun t p =>
      if strStartsWith p.1 "SOL:" then t
      else mapUpdate p.2.mint (fun cur => cur.getD 0 + p.2.amount) t)
    []

/-- Emission loop of the variant (lines 425–456): for each mint in the union of
pre/post totals, a positive difference is pushed to `tokensBought` with
`rawAmount = difference`; a negative one to `tokensSold` with
`rawAmount = Math.abs(difference)` — the magnitude, flipped positive. -/
def emitTransact (f : String → TokenInfo) (preTot postTot : List (String × Int)) :
    List String → List SoldBoughtEntry × List SoldBoughtEntry
  | [] => ([], [])
  | mint :: rest =>
    let preT := (mapGet mint preTot).getD 0
    let postT := (mapGet mint postTot).getD 0
    let d := postT - preT
    let rec' := emitTransact f preTot postTot rest
    if d ≠ 0 then
      let info := f mint
      if d > 0 then
        (rec'.1,
         { mint := mint
           symbol := info.symbol
           amount := (d : Rat) / (10 : Rat) ^ info.decimals
           rawAmount := d
           decimals := info.decimals
           logouri := info.logouri } :: rec'.2)
      else
        ({ mint := mint
           symbol := info.symbol
           amount := ((d.natAbs : Int) : Rat) / (10 : Rat) ^ info.decimals
           rawAmount := (d.natAbs : Int)
           decimals := info.decimals
           logouri := info.logouri } :: rec'.1,
         rec'.2)
    else rec'

/-- The native-balance comparison of the variant (lines 369–398): when the
`SOL:` entries differ, push a bought entry (`rawAmount = solBalanceChange`) or
a sold entry (`rawAmount = Math.abs(solBalanceChange)`, positive). -/
def transactSolEntries (f : String → TokenInfo) (preSol postSol : Int) :
    List SoldBoughtEntry × List SoldBoughtEntry :=
  if preSol ≠ postSol then
    let c := postSol - preSol
    let info := f SOL_MINT
    if c > 0 then
      ([],
       [{ mint := SOL_MINT
          symbol := some "SOL"
          amount := (c : Rat) / (LAMPORTS_PER_SOL : Rat)
          rawAmount := c
          decimals := info.decimals
          logouri := info.logouri }])
    else if c < 0 then
      ([{ mint := SOL_MINT
          symbol := some "SOL"
          amount := ((c.natAbs : Int) : Rat) / (LAMPORTS_PER_SOL : Rat)
          rawAmount := (c.natAbs : Int)
          decimals := info.decimals
          logouri := info.logouri }],
       [])
    else ([], [])
  else ([], [])

/-- The alternative legacy variant, assembled (`index.ts` lines 248–464). -/
def transactPipeline (inp : TransactInput) : TransactResult :=
  let uniq := dedupFirst inp.instructionAccounts
  let pre := transactPreBalances inp uniq
  match inp.simResult.accounts with
  | none => .noAccountData inp.simResult.errIsNull
  | some accs =>
    let post := transactPostBalances inp uniq accs
    let preSol := ((mapGet ("SOL:" ++ inp.firstSignerWallet) pre).map (·.amount)).getD 0
    let postSol := ((mapGet ("SOL:" ++ inp.firstSignerWallet) post).map (·.amount)).getD 0
    let solEs := transactSolEntries inp.fetchInfo preSol postSol
    let preTot := mintTotals pre
    let postTot := mintTotals post
    let allMints := dedupFirst (preTot.map (·.1) ++ postTot.map (·.1))
    let mintEs := emitTransact inp.fetchInfo preTot postTot allMints
    .result inp.firstSignerWallet (solEs.1 ++ mintEs.1) (solEs.2 ++ mintEs.2)
      inp.simResult.errIsNull

/-!  ### Concrete inputs used by counterexamples and witnesses  -/

/-- System-program owner string used by the concrete inputs. -/
def SYS_OWNER : String := "11111111111111111111111111111111"

/-- Constant metadata stub used by the concrete inputs. -/
def stubInfo : String → TokenInfo :=
  fun _ => { logouri := "", decimals := 0, symbol := none, name := none }

/-- Pre-state of a plain (non-token) account with the given lamports. -/
def sysPre (lam : Int) : PreAccountInfo :=
  { lamports := lam, owner := SYS_OWNER, dataLength := 0, decoded := ⟨"", 0, ""⟩ }

/-- Pre-state of a token account. -/
def tokPre (mint : String) (amt : Int) (owner : String) : PreAccountInfo :=
  { lamports := 2039280, owner := TOKEN_PROGRAM_ID, dataLength := ACCOUNT_SIZE,
    decoded := ⟨mint, amt, owner⟩ }

/-- Post-state of a plain (non-token) account. -/
def sysPost (lam : Int) : PostAccount :=
  { lamports := lam, owner := SYS_OWNER, dataLength := 0, decoded := none }

/-- Post-state of a token account. -/
def tokPost (mint : String) (amt : Int) (owner : String) : PostAccount :=
  { lamports := 2039280, owner := TOKEN_PROGRAM_ID, dataLength := ACCOUNT_SIZE,
    decoded := some ⟨mint, amt, owner⟩ }

/-- Versioned run in which wallet `W` holds mint `MintM` in two token accounts
`a1` (1000 → 1500) and `a2` (200 → 500), native balance unchanged. -/
def cxInput1 : VersionedInput :=
  { staticAccountKeys := ["W", "a1", "a2"]
    getAccountInfo := fun a =>
      if a = "W" then some (sysPre 5)
      else if a = "a1" then some (tokPre "MintM" 1000 "W")
      else if a = "a2" then some (tokPre "MintM" 200 "W")
      else none
    simResult :=
      { accounts := some [some (sysPost 5), some (tokPost "MintM" 1500 "W"),
          some (tokPost "MintM" 500 "W")]
        errIsNull := true }
    fetchInfo := stubInfo }

/-- Versioned run in which wallet `W` holds the wrapped-native mint in two
token accounts `a1` (0 → 500) and `a2` (0 → 300), native balance unchanged. -/
def cxInput2 : VersionedInput :=
  { staticAccountKeys := ["W", "a1", "a2"]
    getAccountInfo := fun a =>
      if a = "W" then some (sysPre 5)
      else if a = "a1" then some (tokPre SOL_MINT 0 "W")
      else if a = "a2" then some (tokPre SOL_MINT 0 "W")
      else none
    simResult :=
      { accounts := some [some (sysPost 5), some (tokPost SOL_MINT 500 "W"),
          some (tokPost SOL_MINT 300 "W")]
        errIsNull := true }
    fetchInfo := stubInfo }

/-- Legacy run in which wallet `W`'s native balance drops from 1000 to 900 and
no token account is touched. -/
def cxInput3 : LegacyInput :=
  { primaryWallet := "W"
    instructionAccounts := ["W"]
    getAccountInfo := fun a => if a = "W" then some (sysPre 1000) else none
    simResult := { accounts := some [some (sysPost 900)], errIsNull := true }
    fetchInfo := stubInfo }

/-- Legacy run whose simulation response has no accounts array. -/
def cxInput4 : LegacyInput :=
  { primaryWallet := "W"
    instructionAccounts := ["W"]
    getAccountInfo := fun a => if a = "W" then some (sysPre 1000) else none
    simResult := { accounts := none, errIsNull := true }
    fetchInfo := stubInfo }

/-- Versioned run in which the target wallet `W` has a pre-snapshot record
(100 lamports) but the simulation response returns `null` for it. -/
def cxInput5 : VersionedInput :=
  { staticAccountKeys := ["W"]
    getAccountInfo := fun a => if a = "W" then some (sysPre 100) else none
    simResult := { accounts := some [none], errIsNull := true }
    fetchInfo := stubInfo }

/-- Run of the alternative legacy variant in which wallet `W` disposes of 500
units of `MintM` (token account `t1`, 1000 → 500), native balance unchanged. -/
def cxInput6 : TransactInput :=
  { firstSignerWallet := "W"
    instructionAccounts := ["t1"]
    getBalance := fun a => if a = "W" then some 0 else none
    getAccountInfo := fun a => if a = "t1" then some (tokPre "MintM" 1000 "W") else none
    simResult :=
      { accounts := some [some ⟨0, TOKEN_PROGRAM_ID, ACCOUNT_SIZE, some ⟨"MintM", 500, "W"⟩⟩]
        errIsNull := true }
    fetchInfo := stubInfo }

/-- Versioned run in which wallet `W` holds mint `MintM` in two token accounts
whose changes cancel exactly (`a1`: 1000 → 1500, `a2`: 1500 → 1000), native
balance unchanged. -/
def cxInput7 : VersionedInput :=
  { staticAccountKeys := ["W", "a1", "a2"]
    getAccountInfo := fun a =>
      if a = "W" then some (sysPre 5)
      else if a = "a1" then some (tokPre "MintM" 1000 "W")
      else if a = "a2" then some (tokPre "MintM" 1500 "W")
      else none
    simResult :=
      { accounts := some [some (sysPost 5), some (tokPost "MintM" 1500 "W"),
          some (tokPost "MintM" 1000 "W")]
        errIsNull := true }
    fetchInfo := stubInfo }

/-- The accounts array of `cxInput7` (named so that stage functions can be
evaluated on it). -/
def cxAccs7 : List (Option PostAccount) :=
  [some (sysPost 5), some (tokPost "MintM" 1500 "W"), some (tokPost "MintM" 1000 "W")]

/-- Aggregated amount of a mint over a snapshot map. -/
def mintAmountTotal (mint : String) (m : List (String × TokenRecord)) : Int :=
  (m.map (fun p => if p.2.mint = mint then p.2.amount else 0)).sum

/-- Sold list of a `TransactResult` (empty on the early-return case). -/
def transactSold : TransactResult → List SoldBoughtEntry
  | .noAccountData _ => []
  | .result _ s _ _ => s

/-- Bought list of a `TransactResult` (empty on the early-return case). -/
def transactBought : TransactResult → List SoldBoughtEntry
  | .noAccountData _ => []
  | .result _ _ b _ => b

/-!  ### Association-list lemmas  -/

theorem mapGet_mem {α : Type} (k : String) (v : α) (m : List (String × α))
    (h : mapGet k m = some v) : (k, v) ∈ m := by
  induction m with
  | nil => simp [mapGet] at h
  | cons p rest ih =>
    obtain ⟨k₁, v₁⟩ := p
    by_cases hk : k₁ = k
    · subst hk
      simp [mapGet] at h
      subst h
      exact List.mem_cons_self _ _
    · simp [mapGet, hk] at h
      exact List.mem_cons_of_mem _ (ih h)

theorem mapGet_mapSet_self {α : Type} (k : String) (v : α) (m : List (String × α)) :
    mapGet k (mapSet k v m) = some v := by
  induction m with
  | nil => simp [mapSet, mapGet]
  | cons p rest ih =>
    obtain ⟨k₁, v₁⟩ := p
    by_cases hk : k₁ = k
    · simp [mapSet, mapGet, hk]
    · simp [mapSet, mapGet, hk, ih]

theorem mapGet_mapUpdate_self {α : Type} (k : String) (f : Option α → α)
    (m : List (String × α)) :
    mapGet k (mapUpdate k f m) = some (f (mapGet k m)) := by
  induction m with
  | nil => simp [mapUpdate, mapGet]
  | cons p rest ih =>
    obtain ⟨k₁, v₁⟩ := p
    by_cases hk : k₁ = k
    · simp [mapUpdate, mapGet, hk]
    · simp [mapUpdate, mapGet, hk, ih]

theorem mapGet_mapUpdate_ne {α : Type} (k k' : String) (f : Option α → α)
    (m : List (String × α)) (h : k' ≠ k) :
    mapGet k' (mapUpdate k f m) = mapGet k' m := by
  have hne : ¬ k = k' := fun e => h e.symm
  induction m with
  | nil => simp [mapUpdate, mapGet, hne]
  | cons p rest ih =>
    obtain ⟨k₁, v₁⟩ := p
    by_cases hk : k₁ = k
    · subst hk
      simp [mapUpdate, mapGet, hne]
    · by_cases hk' : k₁ = k'
      · simp [mapUpdate, mapGet, hk, hk', h]
      · simp [mapUpdate, mapGet, hk, hk', ih]

theorem keys_mapUpdate {α : Type} (k : String) (f : Option α → α) (m : List (String × α)) :
    (mapUpdate k f m).map Prod.fst =
      if k ∈ m.map Prod.fst then m.map Prod.fst else m.map Prod.fst ++ [k] := by
  induction m with
  | nil => simp [mapUpdate]
  | cons p rest ih =>
    obtain ⟨k₁, v₁⟩ := p
    by_cases hk : k₁ = k
    · subst hk
      simp [mapUpdate]
    · have hk' : ¬ (k = k₁) := fun e => hk e.symm
      by_cases hmem : k ∈ rest.map Prod.fst
      · simp [mapUpdate, hk, hmem, hk', ih]
      · simp [mapUpdate, hk, hmem, hk', ih]

theorem nodup_keys_mapUpdate {α : Type} (k : String) (f : Option α → α)
    (m : List (String × α)) (h : (m.map Prod.fst).Nodup) :
    ((mapUpdate k f m).map Prod.fst).Nodup := by
  rw [keys_mapUpdate]
  by_cases hmem : k ∈ m.map Prod.fst
  · simp [hmem, h]
  · simp only [hmem, if_false]
    exact List.Nodup.append h (List.nodup_singleton k) (by simp [List.disjoint_singleton, hmem])

/-- Sum of the values of an `Int`-valued association list. -/
def valsSum (m : List (String × Int)) : Int := (m.map (·.2)).sum

theorem valsSum_mapUpdate_add (k : String) (bc : Int) (m : List (String × Int)) :
    valsSum (mapUpdate k (fun cur => cur.getD 0 + bc) m) = valsSum m + bc := by
  induction m with
  | nil => simp [mapUpdate, valsSum]
  | cons p rest ih =>
    obtain ⟨k₁, v₁⟩ := p
    by_cases hk : k₁ = k
    · simp [mapUpdate, hk, valsSum]
      omega
    · simp [mapUpdate, hk, valsSum] at ih ⊢
      omega

theorem mem_mapUpdate {α : Type} (k : String) (f : Option α → α) (m : List (String × α))
    (p : String × α) (hp : p ∈ mapUpdate k f m) :
    p ∈ m ∨ p = (k, f none) ∨ ∃ v, p = (k, f (some v)) ∧ (k, v) ∈ m := by
  induction m with
  | nil =>
    simp [mapUpdate] at hp
    exact Or.inr (Or.inl hp)
  | cons q rest ih =>
    obtain ⟨k₁, v₁⟩ := q
    by_cases hk : k₁ = k
    · subst hk
      simp [mapUpdate] at hp
      rcases hp with h | h
      · exact Or.inr (Or.inr ⟨v₁, h, List.mem_cons_self _ _⟩)
      · exact Or.inl (List.mem_cons_of_mem _ h)
    · simp only [mapUpdate, if_neg hk, List.mem_cons] at hp
      rcases hp with h | h

      · exact Or.inl (by simp [h])
      · rcases ih h with h' | h' | ⟨v, hv, hvm⟩
        · exact Or.inl (List.mem_cons_of_mem _ h')
        · exact Or.inr (Or.inl h')
        · exact Or.inr (Or.inr ⟨v, hv, List.mem_cons_of_mem _ hvm⟩)

/-!  ### `extractFirst` lemmas  -/

theorem extractFirst_sublist {α : Type} (p : α → Bool) (l : List α) :
    (extractFirst p l).2.Sublist l := by
  induction l with
  | nil => simp [extractFirst]
  | cons x xs ih =>
    by_cases h : p x
    · simp only [extractFirst, h, if_true]
      exact List.sublist_cons_self x xs
    · simpa [extractFirst, h] using ih.cons₂ x

theorem extractFirst_of_forall_not {α : Type} (p : α → Bool) (l : List α)
    (h : ∀ x ∈ l, p x = false) : extractFirst p l = (none, l) := by
  induction l with
  | nil => simp [extractFirst]
  | cons x xs ih =>
    have hx := h x (List.mem_cons_self _ _)
    have hxs := ih (fun y hy => h y (List.mem_cons_of_mem _ hy))
    simp [extractFirst, hx, hxs]

theorem extractFirst_none_spec {α : Type} (p : α → Bool) (l : List α)
    (h : (extractFirst p l).1 = none) :
    (extractFirst p l).2 = l ∧ l.filter p = [] := by
  induction l with
  | nil => simp [extractFirst]
  | cons x xs ih =>
    by_cases hx : p x
    · simp [extractFirst, hx] at h
    · simp only [extractFirst, hx, Bool.false_eq_true, if_false] at h ⊢
      obtain ⟨h₁, h₂⟩ := ih h
      simp [List.filter_cons, hx, h₁, h₂]

theorem extractFirst_some_filter {α : Type} (p : α → Bool) (l : List α) (x : α)
    (h : (extractFirst p l).1 = some x) :
    p x = true ∧ l.filter p = x :: (extractFirst p l).2.filter p := by
  induction l with
  | nil => simp [extractFirst] at h
  | cons y ys ih =>
    by_cases hy : p y
    · simp only [extractFirst, hy, if_true] at h ⊢
      obtain rfl : y = x := by simpa using h
      simp [List.filter_cons, hy]
    · simp only [extractFirst, hy, Bool.false_eq_true, if_false] at h ⊢
      obtain ⟨hpx, hf⟩ := ih h
      simp [List.filter_cons, hy, hpx, hf]

/-!  ### Lemmas about the versioned token-delta stage  -/

/-- Signed total of the per-account owned deltas: the sum of
`postAmount - preAmount` over the pre-snapshot accounts owned by `w` that are
present in the post-snapshot, restricted to nonzero terms. -/
def ownedDeltaSum (w : String) (post : List (String × TokenRecord)) :
    List (String × TokenRecord) → Int
  | [] => 0
  | (addr, r) :: rest =>
    (match mapGet addr post with
     | some q => if r.owner = w ∧ q.amount - r.amount ≠ 0 then q.amount - r.amount else 0
     | none => 0) + ownedDeltaSum w post rest

theorem tokenDeltasV_sign (f : String → TokenInfo) (w : String)
    (post pre : List (String × TokenRecord)) :
    (∀ a ∈ (tokenDeltasV f w post pre).1, 0 < a.balanceChange) ∧
    (∀ a ∈ (tokenDeltasV f w post pre).2, a.balanceChange < 0) := by
  induction pre with
  | nil => simp [tokenDeltasV]
  | cons p rest ih =>
    obtain ⟨addr, preInfo⟩ := p
    obtain ⟨ih₁, ih₂⟩ := ih
    rcases hq : mapGet addr post with _ | postInfo
    · simpa [tokenDeltasV, hq] using ⟨ih₁, ih₂⟩
    · by_cases hw : preInfo.owner = w
      · by_cases hz : postInfo.amount - preInfo.amount = 0
        · simpa [tokenDeltasV, hq, hw, hz] using ⟨ih₁, ih₂⟩
        · by_cases hpos : 0 < postInfo.amount - preInfo.amount
          · constructor
            · intro a ha
              simp [tokenDeltasV, hq, hw, hz, hpos] at ha
              rcases ha with h | h
              · rw [h]
                exact hpos
              · exact ih₁ a h
            · intro a ha
              simp [tokenDeltasV, hq, hw, hz, hpos] at ha
              exact ih₂ a ha
          · constructor
            · intro a ha
              simp [tokenDeltasV, hq, hw, hz, hpos] at ha
              exact ih₁ a ha
            · intro a ha
              simp [tokenDeltasV, hq, hw, hz, hpos] at ha
              rcases ha with h | h
              · rw [h]
                show postInfo.amount - preInfo.amount < 0
                omega
              · exact ih₂ a h
      · simpa [tokenDeltasV, hq, hw] using ⟨ih₁, ih₂⟩

theorem tokenDeltasV_sum (f : String → TokenInfo) (w : String)
    (post pre : List (String × TokenRecord)) :
    bcSum (tokenDeltasV f w post pre).1 + bcSum (tokenDeltasV f w post pre).2 =
      ownedDeltaSum w post pre := by
  induction pre with
  | nil => simp [tokenDeltasV, ownedDeltaSum, bcSum]
  | cons p rest ih =>
    obtain ⟨addr, preInfo⟩ := p
    rcases hq : mapGet addr post with _ | postInfo
    · simp only [tokenDeltasV, ownedDeltaSum, hq]
      simpa using ih
    · by_cases hw : preInfo.owner = w
      · by_cases hz : postInfo.amount - preInfo.amount = 0
        · simp only [tokenDeltasV, ownedDeltaSum, hq]
          simp [hw, hz]
          simpa using ih
        · by_cases hpos : 0 < postInfo.amount - preInfo.amount
          · simp only [tokenDeltasV, ownedDeltaSum, hq]
            simp [hw, hz, hpos, bcSum]
            simp [bcSum] at ih
            omega
          · simp only [tokenDeltasV, ownedDeltaSum, hq]
            simp [hw, hz, hpos, bcSum]
            simp [bcSum] at ih
            omega
      · simp only [tokenDeltasV, ownedDeltaSum, hq]
        simp [hw]
        simpa using ih

theorem tokenDeltasV_mints (f : String → TokenInfo) (w : String)
    (post pre : List (String × TokenRecord)) :
    ∀ a ∈ (tokenDeltasV f w post pre).1 ++ (tokenDeltasV f w post pre).2,
      ∃ p ∈ pre, a.mint = (p.2 : TokenRecord).mint := by
  induction pre with
  | nil => simp [tokenDeltasV]
  | cons p rest ih =>
    obtain ⟨addr, preInfo⟩ := p
    intro a ha
    have step : a ∈ (tokenDeltasV f w post rest).1 ++ (tokenDeltasV f w post rest).2 ∨
        a.mint = preInfo.mint := by
      rcases hq : mapGet addr post with _ | postInfo
      · simp only [tokenDeltasV, hq] at ha
        exact Or.inl ha
      · by_cases hw : preInfo.owner = w
        · by_cases hz : postInfo.amount - preInfo.amount = 0
          · simp only [tokenDeltasV, hq] at ha
            simp [hw, hz] at ha
            exact Or.inl (by simpa using ha)
          · by_cases hpos : 0 < postInfo.amount - preInfo.amount
            · simp only [tokenDeltasV, hq] at ha
              simp [hw, hz, hpos] at ha
              rcases ha with h | h | h
              · exact Or.inr (by rw [h])
              · exact Or.inl (List.mem_append.mpr (Or.inl h))
              · exact Or.inl (List.mem_append.mpr (Or.inr h))
            · simp only [tokenDeltasV, hq] at ha
              simp [hw, hz, hpos] at ha
              rcases ha with h | h | h
              · exact Or.inl (List.mem_append.mpr (Or.inl h))
              · exact Or.inr (by rw [h])
              · exact Or.inl (List.mem_append.mpr (Or.inr h))
        · simp only [tokenDeltasV, hq] at ha
          simp [hw] at ha
          exact Or.inl (by simpa using ha)
    rcases step with h | h
    · obtain ⟨q, hq₁, hq₂⟩ := ih a h
      exact ⟨q, List.mem_cons_of_mem _ hq₁, hq₂⟩
    · exact ⟨(addr, preInfo), List.mem_cons_self _ _, h⟩

theorem tokenDeltasV_skip_missing (f : String → TokenInfo) (w : String)
    (post pre : List (String × TokenRecord)) :
    tokenDeltasV f w post (pre.filter (fun p => (mapGet p.1 post).isSome)) =
      tokenDeltasV f w post pre := by
  induction pre with
  | nil => simp [tokenDeltasV]
  | cons p rest ih =>
    obtain ⟨addr, preInfo⟩ := p
    rcases hq : mapGet addr post with _ | postInfo
    · simp only [List.filter_cons, hq, Option.isSome_none, Bool.false_eq_true, if_false]
      simp only [tokenDeltasV, hq, ih]
    · simp only [List.filter_cons, hq, Option.isSome_some, if_true]
      simp only [tokenDeltasV, hq, ih]

/-!  ### Lemmas about the native/wrapped merge  -/

/-- Number of wrapped-SOL entries in a list of assets. -/
def solCount (l : List TokenAsset) : Nat := (l.filter isSolAsset).length

/-- Sum of the `balanceChange` fields of the wrapped-SOL entries. -/
def solBcSum (l : List TokenAsset) : Int := bcSum (l.filter isSolAsset)

theorem solCount_extract_rest (l : List TokenAsset) (h : solCount l ≤ 1) :
    solCount (extractFirst isSolAsset l).2 = 0 := by
  rcases he : (extractFirst isSolAsset l).1 with _ | x
  · obtain ⟨h₁, h₂⟩ := extractFirst_none_spec isSolAsset l he
    rw [solCount, h₁, h₂]
    rfl
  · obtain ⟨hpx, hf⟩ := extractFirst_some_filter isSolAsset l x he
    have : (l.filter isSolAsset).length = ((extractFirst isSolAsset l).2.filter isSolAsset).length + 1 := by
      rw [hf]
      simp
    simp only [solCount] at h ⊢
    omega

theorem solBcSum_extract (l : List TokenAsset) (h : solCount l ≤ 1) :
    (((extractFirst isSolAsset l).1.map (·.balanceChange)).getD 0) = solBcSum l := by
  rcases he : (extractFirst isSolAsset l).1 with _ | x
  · obtain ⟨h₁, h₂⟩ := extractFirst_none_spec isSolAsset l he
    simp [solBcSum, bcSum, h₂]
  · obtain ⟨hpx, hf⟩ := extractFirst_some_filter isSolAsset l x he
    have hrest : solCount (extractFirst isSolAsset l).2 = 0 := solCount_extract_rest l h
    have hnil : (extractFirst isSolAsset l).2.filter isSolAsset = [] :=
      List.length_eq_zero.mp hrest
    simp [solBcSum, bcSum, hf, hnil]

theorem mergedSolTotal_eq (direct : Int) (b s : List TokenAsset)
    (hb : solCount b ≤ 1) (hs : solCount s ≤ 1) :
    mergedSolTotal direct b s = direct + solBcSum b + solBcSum s := by
  rw [mergedSolTotal, solBcSum_extract b hb, solBcSum_extract s hs]

theorem mergeNativeSol_count (f : String → TokenInfo) (direct : Int)
    (b s : List TokenAsset) (hb : solCount b ≤ 1) (hs : solCount s ≤ 1) :
    solCount ((mergeNativeSol f direct b s).1 ++ (mergeNativeSol f direct b s).2) ≤ 1 ∧
    (direct + solBcSum b + solBcSum s = 0 →
      solCount ((mergeNativeSol f direct b s).1 ++ (mergeNativeSol f direct b s).2) = 0) := by
  have hb0 : solCount (extractFirst isSolAsset b).2 = 0 := solCount_extract_rest b hb
  have hs0 : solCount (extractFirst isSolAsset s).2 = 0 := solCount_extract_rest s hs
  have htot := mergedSolTotal_eq direct b s hb hs
  by_cases hz : mergedSolTotal direct b s = 0
  · have : mergeNativeSol f direct b s = ((extractFirst isSolAsset b).2, (extractFirst isSolAsset s).2) := by
      rw [mergeNativeSol]
      simp [hz]
    rw [this]
    constructor
    · simp only [solCount, List.filter_append, List.length_append] at hb0 hs0 ⊢
      omega
    · intro _
      simp only [solCount, List.filter_append, List.length_append] at hb0 hs0 ⊢
      omega
  · have hsum : ¬ (direct + solBcSum b + solBcSum s = 0) := by
      rw [← htot]
      exact hz
    by_cases hpos : 0 < mergedSolTotal direct b s
    · have : mergeNativeSol f direct b s =
          ((extractFirst isSolAsset b).2 ++
            [{ mint := SOL_MINT
               balanceChange := mergedSolTotal direct b s
               amount := ((mergedSolTotal direct b s : Int) : Rat) / (10 : Rat) ^ (f SOL_MINT).decimals
               logouri := (f SOL_MINT).logouri
               decimals := (f SOL_MINT).decimals
               symbol := (f SOL_MINT).symbol
               name := (f SOL_MINT).name }],
           (extractFirst isSolAsset s).2) := by
        rw [mergeNativeSol]
        simp [hz, hpos]
      rw [this]
      constructor
      · simp only [solCount, List.filter_append, List.length_append] at hb0 hs0 ⊢
        simp [List.filter_cons, isSolAsset]
        omega
      · intro hc
        exact absurd hc hsum
    · have : mergeNativeSol f direct b s =
          ((extractFirst isSolAsset b).2,
           (extractFirst isSolAsset s).2 ++
            [{ mint := SOL_MINT
               balanceChange := -((mergedSolTotal direct b s).natAbs : Int)
               amount := ((mergedSolTotal direct b s : Int) : Rat) / (10 : Rat) ^ (f SOL_MINT).decimals
               logouri := (f SOL_MINT).logouri
               decimals := (f SOL_MINT).decimals
               symbol := (f SOL_MINT).symbol
               name := (f SOL_MINT).name }]) := by
        rw [mergeNativeSol]
        simp [hz, hpos]
      rw [this]
      constructor
      · simp only [solCount, List.filter_append, List.length_append] at hb0 hs0 ⊢
        simp [List.filter_cons, isSolAsset]
        omega
      · intro hc
        exact absurd hc hsum

theorem mergeNativeSol_sign (f : String → TokenInfo) (direct : Int)
    (b s : List TokenAsset)
    (hb : ∀ a ∈ b, 0 < a.balanceChange) (hs : ∀ a ∈ s, a.balanceChange < 0) :
    (∀ a ∈ (mergeNativeSol f direct b s).1, 0 < a.balanceChange) ∧
    (∀ a ∈ (mergeNativeSol f direct b s).2, a.balanceChange < 0) := by
  have hb' : ∀ a ∈ (extractFirst isSolAsset b).2, 0 < a.balanceChange :=
    fun a ha => hb a ((extractFirst_sublist isSolAsset b).subset ha)
  have hs' : ∀ a ∈ (extractFirst isSolAsset s).2, a.balanceChange < 0 :=
    fun a ha => hs a ((extractFirst_sublist isSolAsset s).subset ha)
  rw [mergeNativeSol]
  by_cases hz : mergedSolTotal direct b s = 0
  · simpa [hz] using ⟨hb', hs'⟩
  · by_cases hpos : 0 < mergedSolTotal direct b s
    · simp only [hz, hpos, if_true, if_pos, ne_eq, not_false_iff]
      constructor
      · intro a ha
        rcases List.mem_append.mp ha with h | h
        · exact hb' a h
        · have : a.balanceChange = mergedSolTotal direct b s := by
            rw [List.mem_singleton.mp h]
          omega
      · exact hs'
    · have hneg : mergedSolTotal direct b s < 0 := by omega
      simp only [hz, hpos, ne_eq, not_false_iff, if_true, if_false]
      constructor
      · exact hb'
      · intro a ha
        rcases List.mem_append.mp ha with h | h
        · exact hs' a h
        · have : a.balanceChange = -((mergedSolTotal direct b s).natAbs : Int) := by
            rw [List.mem_singleton.mp h]
          rw [this]
          omega

theorem mergeNativeSol_no_sol (f : String → TokenInfo) (direct : Int)
    (b s : List TokenAsset)
    (hb : ∀ a ∈ b, isSolAsset a = false) (hs : ∀ a ∈ s, isSolAsset a = false)
    (hd : direct = 0) :
    mergeNativeSol f direct b s = (b, s) := by
  have heb := extractFirst_of_forall_not isSolAsset b hb
  have hes := extractFirst_of_forall_not isSolAsset s hs
  have htot : mergedSolTotal direct b s = 0 := by
    rw [mergedSolTotal, heb, hes, hd]
    rfl
  rw [mergeNativeSol, heb, hes]
  simp [htot]

theorem mergeNativeSol_total_mem (f : String → TokenInfo) (direct : Int)
    (b s : List TokenAsset) (h : mergedSolTotal direct b s ≠ 0) :
    ∃ a ∈ (mergeNativeSol f direct b s).1 ++ (mergeNativeSol f direct b s).2,
      a.mint = SOL_MINT ∧ a.balanceChange = mergedSolTotal direct b s := by
  rw [mergeNativeSol]
  by_cases hpos : 0 < mergedSolTotal direct b s
  · simp only [h, hpos, ne_eq, not_false_iff, if_true]
    refine ⟨_, List.mem_append.mpr (Or.inl (List.mem_append_right _ (List.mem_singleton_self _))), rfl, rfl⟩
  · have hneg : mergedSolTotal direct b s < 0 := by
      rcases lt_trichotomy (mergedSolTotal direct b s) 0 with hlt | he | hgt
      · exact hlt
      · exact absurd he h
      · exact absurd hgt hpos
    simp only [h, hpos, ne_eq, not_false_iff, if_true, if_false]
    refine ⟨_, List.mem_append.mpr (Or.inr (List.mem_append_right _ (List.mem_singleton_self _))), rfl, ?_⟩
    show -((mergedSolTotal direct b s).natAbs : Int) = mergedSolTotal direct b s
    omega

/-!  ### Lemmas about the legacy aggregation and emission  -/

theorem emitFromTotals_perm (f : String → TokenInfo) (l : List (String × Int)) :
    List.Perm
      (((emitFromTotals f l).1 ++ (emitFromTotals f l).2).map (·.mint))
      (l.map Prod.fst) := by
  induction l with
  | nil => simp [emitFromTotals]
  | cons p rest ih =>
    obtain ⟨mint, bc⟩ := p
    by_cases hpos : 0 < bc
    · simp only [emitFromTotals, hpos, if_true, if_pos, List.cons_append, List.map_cons]
      exact ih.cons mint
    · simp only [emitFromTotals, hpos, if_false, List.map_append, List.map_cons]
      have ih' := ih
      simp only [List.map_append] at ih'
      exact List.perm_middle.trans (ih'.cons mint)

theorem emitFromTotals_sign (f : String → TokenInfo) (l : List (String × Int)) :
    (∀ a ∈ (emitFromTotals f l).1, 0 < a.balanceChange) ∧
    (∀ a ∈ (emitFromTotals f l).2, a.balanceChange ≤ 0) := by
  induction l with
  | nil => simp [emitFromTotals]
  | cons p rest ih =>
    obtain ⟨mint, bc⟩ := p
    obtain ⟨ih₁, ih₂⟩ := ih
    by_cases hpos : 0 < bc
    · constructor
      · intro a ha
        simp only [emitFromTotals, hpos, if_true, if_pos, List.mem_cons] at ha
        rcases ha with h | h
        · rw [h]
          exact hpos
        · exact ih₁ a h
      · intro a ha
        simp only [emitFromTotals, hpos, if_true, if_pos] at ha
        exact ih₂ a ha
    · constructor
      · intro a ha
        simp only [emitFromTotals, hpos, if_false] at ha
        exact ih₁ a ha
      · intro a ha
        simp only [emitFromTotals, hpos, if_false, List.mem_cons] at ha
        rcases ha with h | h
        · rw [h]
          show bc ≤ 0
          omega
        · exact ih₂ a h

theorem emitFromTotals_sum (f : String → TokenInfo) (l : List (String × Int)) :
    bcSum (emitFromTotals f l).1 + bcSum (emitFromTotals f l).2 = valsSum l := by
  induction l with
  | nil => simp [emitFromTotals, bcSum, valsSum]
  | cons p rest ih =>
    obtain ⟨mint, bc⟩ := p
    by_cases hpos : 0 < bc
    · simp only [emitFromTotals, hpos, if_true, if_pos, bcSum, valsSum, List.map_cons,
        List.sum_cons] at ih ⊢
      omega
    · simp only [emitFromTotals, hpos, if_false, bcSum, valsSum, List.map_cons,
        List.sum_cons] at ih ⊢
      omega

theorem emitFromTotals_mem (f : String → TokenInfo) (l : List (String × Int)) :
    ∀ a ∈ (emitFromTotals f l).1 ++ (emitFromTotals f l).2,
      (a.mint, a.balanceChange) ∈ l := by
  induction l with
  | nil => simp [emitFromTotals]
  | cons p rest ih =>
    obtain ⟨mint, bc⟩ := p
    intro a ha
    by_cases hpos : 0 < bc
    · simp only [emitFromTotals, hpos, if_true, if_pos, List.cons_append, List.mem_cons] at ha
      rcases ha with h | h
      · rw [h]
        exact List.mem_cons_self _ _
      · exact List.mem_cons_of_mem _ (ih a h)
    · simp only [emitFromTotals, hpos, if_false, List.mem_append, List.mem_cons] at ha
      rcases ha with h | h | h
      · exact List.mem_cons_of_mem _ (ih a (List.mem_append.mpr (Or.inl h)))
      · rw [h]
        exact List.mem_cons_self _ _
      · exact List.mem_cons_of_mem _ (ih a (List.mem_append.mpr (Or.inr h)))

/-- Inner per-mint map of a wallet inside the aggregated wallet-changes map. -/
def innerOf (w : String) (m : List (String × List (String × Int))) : List (String × Int) :=
  (mapGet w m).getD []

theorem addWalletChange_innerSum (owner mint : String) (bc : Int)
    (m : List (String × List (String × Int))) (w : String) :
    valsSum (innerOf w (addWalletChange owner mint bc m)) =
      valsSum (innerOf w m) + (if owner = w then bc else 0) := by
  by_cases hw : owner = w
  · subst hw
    rw [addWalletChange, innerOf, mapGet_mapUpdate_self]
    simp only [Option.getD_some, if_true]
    rw [valsSum_mapUpdate_add]
    simp [innerOf]
  · rw [addWalletChange, innerOf, mapGet_mapUpdate_ne _ _ _ _ (fun e => hw e.symm)]
    simp [innerOf, hw]

theorem walletChangesOf_innerSum (post : List (String × TokenRecord))
    (pre : List (String × TokenRecord)) (m : List (String × List (String × Int)))
    (w : String) :
    valsSum (innerOf w (walletChangesOf post pre m)) =
      valsSum (innerOf w m) + ownedDeltaSum w post pre := by
  induction pre generalizing m with
  | nil => simp [walletChangesOf, ownedDeltaSum]
  | cons p rest ih =>
    obtain ⟨addr, preInfo⟩ := p
    rcases hq : mapGet addr post with _ | postInfo
    · simp only [walletChangesOf, ownedDeltaSum, hq]
      rw [ih]
      omega
    · by_cases hz : postInfo.amount - preInfo.amount = 0
      · simp only [walletChangesOf, ownedDeltaSum, hq]
        simp only [hz, ne_eq, not_true_eq_false, if_false, and_false]
        rw [ih]
        omega
      · by_cases hw : preInfo.owner = w
        · simp only [walletChangesOf, ownedDeltaSum, hq]
          simp only [hz, hw, ne_eq, not_false_iff, if_true, and_self, true_and]
          rw [ih, addWalletChange_innerSum]
          simp [hw]
          ring
        · simp only [walletChangesOf, ownedDeltaSum, hq]
          have hcond : ¬ (preInfo.owner = w ∧ postInfo.amount - preInfo.amount ≠ 0) :=
            fun hc => hw hc.1
          simp only [hz, ne_eq, not_false_iff, if_true, hcond, if_false]
          rw [ih, addWalletChange_innerSum]
          simp [hw]

/-- Every inner per-mint map in the aggregated structure has pairwise-distinct
mint keys. -/
def innersNodup (m : List (String × List (String × Int))) : Prop :=
  ∀ p ∈ m, ((p.2 : List (String × Int)).map Prod.fst).Nodup

theorem addWalletChange_innersNodup (owner mint : String) (bc : Int)
    (m : List (String × List (String × Int))) (h : innersNodup m) :
    innersNodup (addWalletChange owner mint bc m) := by
  intro p hp
  rcases mem_mapUpdate _ _ _ _ hp with hm | hm | ⟨v, hv, hvm⟩
  · exact h p hm
  · rw [hm]
    simp [mapUpdate]
  · rw [hv]
    exact nodup_keys_mapUpdate _ _ _ (h (owner, v) hvm)

theorem walletChangesOf_innersNodup (post : List (String × TokenRecord))
    (pre : List (String × TokenRecord)) (m : List (String × List (String × Int)))
    (h : innersNodup m) : innersNodup (walletChangesOf post pre m) := by
  induction pre generalizing m with
  | nil => simpa [walletChangesOf] using h
  | cons p rest ih =>
    obtain ⟨addr, preInfo⟩ := p
    rcases hq : mapGet addr post with _ | postInfo
    · simp only [walletChangesOf, hq]
      exact ih m h
    · by_cases hz : postInfo.amount - preInfo.amount = 0
      · simp only [walletChangesOf, hq, hz]
        simp only [ne_eq, not_true_eq_false, if_false]
        exact ih m h
      · simp only [walletChangesOf, hq]
        simp only [hz, ne_eq, not_false_iff, if_true]
        exact ih _ (addWalletChange_innersNodup _ _ _ m h)

/-!  ### Lemmas about the versioned post-snapshot collection  -/

theorem collectPostV_token_mem (preBal : List (String × TokenRecord))
    (simAccs : List (Option PostAccount)) (accts : List String) (i : Nat) :
    ∀ p ∈ (collectPostV preBal simAccs accts i).2, (mapGet p.1 preBal).isSome = true := by
  induction accts generalizing i with
  | nil => simp [collectPostV]
  | cons addr rest ih =>
    intro p hp
    rcases hacc : simAccs.getD i none with _ | pa
    · simp only [collectPostV, hacc] at hp
      exact ih (i + 1) p hp
    · simp only [collectPostV, hacc] at hp
      by_cases hpre : (mapGet addr preBal).isSome = true
      · by_cases hown : pa.owner = TOKEN_PROGRAM_ID
        · rcases hdec : pa.decoded with _ | tr
          · simp only [hpre, hown, hdec, and_self, if_true, and_true, true_and,
              List.nil_append] at hp
            exact ih (i + 1) p hp
          · simp only [hpre, hown, hdec, and_self, if_true, and_true, true_and,
              List.cons_append, List.nil_append, List.mem_cons] at hp
            rcases hp with h | h
            · rw [h]
              exact hpre
            · exact ih (i + 1) p h
        · simp only [hown, and_false, if_false, List.nil_append] at hp
          exact ih (i + 1) p hp
      · simp only [hpre, false_and, if_false, List.nil_append] at hp
        exact ih (i + 1) p hp

theorem collectPostV_keys_sub (preBal : List (String × TokenRecord))
    (simAccs : List (Option PostAccount)) (accts : List String) (i : Nat) (addr : String)
    (h : (mapGet addr (collectPostV preBal simAccs accts i).2).isSome = true) :
    (mapGet addr preBal).isSome = true := by
  rcases ho : mapGet addr (collectPostV preBal simAccs accts i).2 with _ | v
  · rw [ho] at h
    simp at h
  · have hm := mapGet_mem _ _ _ ho
    exact collectPostV_token_mem preBal simAccs accts i (addr, v) hm

theorem collectPostV_missing_zero (preBal : List (String × TokenRecord))
    (simAccs : List (Option PostAccount)) (addr : String) (rest : List String) (i : Nat)
    (h : simAccs.getD i none = none) :
    (collectPostV preBal simAccs (addr :: rest) i).1 =
      (addr, 0) :: (collectPostV preBal simAccs rest (i + 1)).1 := by
  have h' : simAccs[i]?.getD none = none := by simpa [List.getD] using h
  simp [collectPostV, h']

/-!  ### Claim theorems  -/

/-- C1, counterexample.  The claim states that for every reconciliation run the
per-account deltas are aggregated into a single total per mint, so at most one
`AssetDelta` per mint appears across `acquired ++ disposed`.  In the versioned
pipeline there is no Step-B aggregation: on `cxInput1`, where wallet `W` holds
`MintM` in two token accounts that both gain, the output's buying list contains
two `AssetDelta`s for the same mint (and the selling list none). -/
theorem c1_counterexample :
    (simulateVersionedTransactionWithBalanceChanges cxInput1).map
      (fun o => (o.walletBalanceChange.buying.map (·.mint),
                 o.walletBalanceChange.selling.map (·.mint))) =
      .ok (["MintM", "MintM"], []) := rfl

/-- C1, amended.  The per-mint aggregation invariant holds for the legacy
pipeline of `index.ts` (its Step-B `walletChanges` map): in every legacy
output, each mint appears at most once across `buying ++ selling`.  The
versioned pipeline emits one entry per token account, so the invariant fails
there (see the counterexample). -/
theorem c1_theorem (inp : LegacyInput) :
    (((simulateTransactionWithBalanceChanges inp).walletBalanceChange.buying ++
      (simulateTransactionWithBalanceChanges inp).walletBalanceChange.selling).map
        (·.mint)).Nodup := by
  rcases ha : inp.simResult.accounts with _ | accs
  · simp [simulateTransactionWithBalanceChanges, ha]
  · rcases ht : legacyPrimaryTotals inp accs with _ | totals
    · simp [simulateTransactionWithBalanceChanges, ha, ht]
    · have htm : (inp.primaryWallet, totals) ∈
          walletChangesOf (legacyPost inp accs).2 (legacyPre inp).2 [] := by
        rw [legacyPrimaryTotals] at ht
        exact mapGet_mem _ _ _ ht
      have hnodup : (totals.map Prod.fst).Nodup := by
        have hinv := walletChangesOf_innersNodup (legacyPost inp accs).2 (legacyPre inp).2 []
          (by intro p hp; simp at hp)
        exact hinv (inp.primaryWallet, totals) htm
      have hperm := emitFromTotals_perm inp.fetchInfo totals
      have hres := (hperm.nodup_iff).mpr hnodup
      simp only [simulateTransactionWithBalanceChanges, ha, ht]
      exact hres

/-- C2, counterexample.  The claim states that the wrapped-native total from
Step B is removed from the generic lists and the combined figure is the only
native-currency entry ever emitted.  On `cxInput2` wallet `W` holds wrapped SOL
in two token accounts that both gain; the merge splices out only the first
buying entry, so the output's buying list contains a leftover wrapped-SOL entry
plus the merged SOL entry — two native-currency entries. -/
theorem c2_counterexample :
    (simulateVersionedTransactionWithBalanceChanges cxInput2).map
      (fun o => (o.walletBalanceChange.buying.map (·.mint),
                 o.walletBalanceChange.selling.map (·.mint))) =
      .ok ([SOL_MINT, SOL_MINT], []) := rfl

/-- C2, amended.  Step D removes at most the first wrapped-SOL entry of
`buying` and the first of `selling`.  Provided each of the raw lists carries at
most one wrapped-SOL entry, the merged output contains at most one
native-currency entry, and none at all when the direct native delta and the
wrapped deltas cancel exactly. -/
theorem c2_theorem (inp : VersionedInput) (accs : List (Option PostAccount))
    (out : VersionedOutput)
    (ha : inp.simResult.accounts = some accs)
    (hok : simulateVersionedTransactionWithBalanceChanges inp = .ok out)
    (hb : solCount (versionedRawDeltas inp accs).1 ≤ 1)
    (hs : solCount (versionedRawDeltas inp accs).2 ≤ 1) :
    solCount (out.walletBalanceChange.buying ++ out.walletBalanceChange.selling) ≤ 1 ∧
    (versionedDirectSol inp accs + solBcSum (versionedRawDeltas inp accs).1 +
        solBcSum (versionedRawDeltas inp accs).2 = 0 →
      solCount (out.walletBalanceChange.buying ++ out.walletBalanceChange.selling) = 0) := by
  simp only [simulateVersionedTransactionWithBalanceChanges, ha, Except.ok.injEq] at hok
  subst hok
  exact mergeNativeSol_count inp.fetchInfo (versionedDirectSol inp accs) _ _ hb hs

/-- C4, counterexample.  The claim states that both pipelines surface an
explicit fatal failure when the simulation response has no accounts array.
The legacy pipeline instead returns a structured result with empty delta lists
and `success: false` (`index.ts` lines 72–83), as it does on `cxInput4`. -/
theorem c4_counterexample :
    simulateTransactionWithBalanceChanges cxInput4 =
      { walletBalanceChange :=
          { wallet := "W", buying := [], selling := [], solChange := some 0 }
        success := false } := rfl

/-- C4, amended.  On a missing accounts array the versioned pipeline throws,
while the legacy pipeline returns a structured result with empty lists and
`success: false`. -/
theorem c4_theorem (vinp : VersionedInput) (linp : LegacyInput)
    (hv : vinp.simResult.accounts = none) (hl : linp.simResult.accounts = none) :
    simulateVersionedTransactionWithBalanceChanges vinp =
      .error "Simulation did not return account data. This may be due to an error in the transaction." ∧
    simulateTransactionWithBalanceChanges linp =
      { walletBalanceChange :=
          { wallet := linp.primaryWallet, buying := [], selling := [], solChange := some 0 }
        success := false } := by
  constructor
  · simp [simulateVersionedTransactionWithBalanceChanges, hv]
  · simp [simulateTransactionWithBalanceChanges, hl]

/-- C5, counterexample.  The claim states that an account with a pre-snapshot
record whose post-snapshot entry is missing or `null` contributes no delta of
any kind, and that a missing entry is never treated as a balance of zero.  On
`cxInput5` the target wallet has 100 pre-simulation lamports and a `null`
post-simulation entry; the versioned pipeline records its post balance as `0`
(`postAccount?.lamports || 0`) and emits a native disposal of −100. -/
theorem c5_counterexample :
    (simulateVersionedTransactionWithBalanceChanges cxInput5).map
      (fun o => o.walletBalanceChange.selling.map (fun a => (a.mint, a.balanceChange))) =
      .ok [(SOL_MINT, -100)] := rfl

/-- C5, amended.  The token half of the claim holds: pre-snapshot accounts
whose address is absent from the post token map are skipped and contribute no
token delta.  The native half does not: a `null` simulation entry is recorded
in the lamport map as balance `0`, so the target wallet's native delta treats
a missing account as zero rather than skipping it. -/
theorem c5_theorem (f : String → TokenInfo) (w : String)
    (post pre preBal : List (String × TokenRecord))
    (simAccs : List (Option PostAccount)) (addr : String) (rest : List String) (i : Nat)
    (h : simAccs.getD i none = none) :
    tokenDeltasV f w post (pre.filter (fun p => (mapGet p.1 post).isSome)) =
      tokenDeltasV f w post pre ∧
    (collectPostV preBal simAccs (addr :: rest) i).1 =
      (addr, 0) :: (collectPostV preBal simAccs rest (i + 1)).1 :=
  ⟨tokenDeltasV_skip_missing f w post pre,
   collectPostV_missing_zero preBal simAccs addr rest i h⟩

/-- C6, counterexample.  The claim states that in every output disposed entries
keep their negative sign.  In the alternative legacy variant (`index.ts` lines
425–456), a disposal of 500 units of `MintM` is emitted in `tokensSold` with
`rawAmount = Math.abs(difference) = 500`, a positive number. -/
theorem c6_counterexample :
    (transactSold (transactPipeline cxInput6)).map (fun e => (e.mint, e.rawAmount)) =
      [("MintM", 500)] ∧
    transactBought (transactPipeline cxInput6) = [] := ⟨rfl, rfl⟩

/-- C7, counterexample.  The claim states that whenever a mint's aggregated
post amount equals its aggregated pre amount no `AssetDelta` for it is
emitted.  On `cxInput7` wallet `W` holds `MintM` in two token accounts whose
changes cancel exactly (aggregate unchanged), yet the versioned pipeline emits
one acquiring and one disposing entry for that mint, because its emission is
per token account. -/
theorem c7_counterexample :
    mintAmountTotal "MintM" (versionedPost cxInput7 cxAccs7).2 =
      mintAmountTotal "MintM" (versionedPre cxInput7).2 ∧
    (simulateVersionedTransactionWithBalanceChanges cxInput7).map
      (fun o => (o.walletBalanceChange.buying.map (fun a => (a.mint, a.balanceChange)),
                 o.walletBalanceChange.selling.map (fun a => (a.mint, a.balanceChange)))) =
      .ok ([("MintM", 500)], [("MintM", -500)]) := ⟨rfl, rfl⟩

/-- C9, confirmed.  For a non-native mint not yet in the cache: a failed remote
lookup returns the zero-valued defaults and leaves the cache unchanged (so the
next call hits the remote collaborator again and succeeds as soon as it
recovers), while a successful lookup is written to the cache and every later
lookup for that mint is served from the cache regardless of the remote's
state. -/
theorem c9_theorem (remote remote2 : String → Option JupResponse)
    (cache : List (String × TokenInfo)) (mint : String)
    (h1 : mint ≠ SOL_MINT) (h2 : mapGet mint cache = none) :
    (remote mint = none →
      fetchTokenInfo remote cache mint = (defaultTokenInfoFor mint, cache)) ∧
    (∀ r, remote mint = some r →
      fetchTokenInfo remote cache mint =
        (tokenInfoOfResponse r, mapSet mint (tokenInfoOfResponse r) cache)) ∧
    (remote mint = none → ∀ r2, remote2 mint = some r2 →
      fetchTokenInfo remote2 (fetchTokenInfo remote cache mint).2 mint =
        (tokenInfoOfResponse r2, mapSet mint (tokenInfoOfResponse r2) cache)) ∧
    (∀ r, remote mint = some r → ∀ m2,
      fetchTokenInfo remote2 (fetchTokenInfo remote cache mint).2 m2 =
        fetchTokenInfo remote2 (mapSet mint (tokenInfoOfResponse r) cache) m2) := by
  refine ⟨?_, ?_, ?_, ?_⟩
  · intro hr
    simp [fetchTokenInfo, h1, h2, hr]
  · intro r hr
    simp [fetchTokenInfo, h1, h2, hr]
  · intro hr r2 hr2
    have hfail : (fetchTokenInfo remote cache mint).2 = cache := by
      simp [fetchTokenInfo, h1, h2, hr]
    rw [hfail]
    simp [fetchTokenInfo, h1, h2, hr2]
  · intro r hr m2
    have hsucc : (fetchTokenInfo remote cache mint).2 =
        mapSet mint (tokenInfoOfResponse r) cache := by
      simp [fetchTokenInfo, h1, h2, hr]
    rw [hsucc]

/-- C10, confirmed.  In the versioned pipeline the post-snapshot token map only
ever contains addresses already present in the pre-snapshot token map, and
every raw token delta draws its mint from a pre-snapshot record — so a token
account with no pre-snapshot token record never contributes an `AssetDelta`. -/
theorem c10_theorem (inp : VersionedInput) (accs : List (Option PostAccount)) :
    (∀ addr, (mapGet addr (versionedPost inp accs).2).isSome = true →
      (mapGet addr (versionedPre inp).2).isSome = true) ∧
    (∀ a ∈ (versionedRawDeltas inp accs).1 ++ (versionedRawDeltas inp accs).2,
      ∃ p ∈ (versionedPre inp).2, a.mint = (p.2 : TokenRecord).mint) :=
  ⟨fun addr h => collectPostV_keys_sub _ _ _ _ addr h,
   tokenDeltasV_mints _ _ _ _⟩

/-- Helper: a successful versioned run determines an accounts array and fixes
the output lists to the merged stage results. -/
theorem versioned_ok_out (inp : VersionedInput) (out : VersionedOutput)
    (hok : simulateVersionedTransactionWithBalanceChanges inp = .ok out) :
    ∃ accs, inp.simResult.accounts = some accs ∧
      out.walletBalanceChange.buying =
        (mergeNativeSol inp.fetchInfo (versionedDirectSol inp accs)
          (versionedRawDeltas inp accs).1 (versionedRawDeltas inp accs).2).1 ∧
      out.walletBalanceChange.selling =
        (mergeNativeSol inp.fetchInfo (versionedDirectSol inp accs)
          (versionedRawDeltas inp accs).1 (versionedRawDeltas inp accs).2).2 := by
  rcases ha : inp.simResult.accounts with _ | accs
  · simp [simulateVersionedTransactionWithBalanceChanges, ha] at hok
  · refine ⟨accs, rfl, ?_, ?_⟩ <;>
      · simp only [simulateVersionedTransactionWithBalanceChanges, ha,
          Except.ok.injEq] at hok
        subst hok
        rfl

/-- Helper: sign discipline of every successful versioned output. -/
theorem versioned_sign (inp : VersionedInput) (out : VersionedOutput)
    (hok : simulateVersionedTransactionWithBalanceChanges inp = .ok out) :
    (∀ a ∈ out.walletBalanceChange.buying, 0 < a.balanceChange) ∧
    (∀ a ∈ out.walletBalanceChange.selling, a.balanceChange < 0) := by
  obtain ⟨accs, _, hbuy, hsell⟩ := versioned_ok_out inp out hok
  rw [hbuy, hsell]
  have hraw := tokenDeltasV_sign inp.fetchInfo (targetWalletOf inp)
    (versionedPost inp accs).2 (versionedPre inp).2
  exact mergeNativeSol_sign _ _ _ _ hraw.1 hraw.2

/-- Helper: sign discipline of every legacy output (note the nonstrict bound on
the selling side: a zero aggregate lands in `selling`). -/
theorem legacy_sign (inp : LegacyInput) :
    (∀ a ∈ (simulateTransactionWithBalanceChanges inp).walletBalanceChange.buying,
      0 < a.balanceChange) ∧
    (∀ a ∈ (simulateTransactionWithBalanceChanges inp).walletBalanceChange.selling,
      a.balanceChange ≤ 0) := by
  rcases ha : inp.simResult.accounts with _ | accs
  · simp [simulateTransactionWithBalanceChanges, ha]
  · rcases ht : legacyPrimaryTotals inp accs with _ | totals
    · simp [simulateTransactionWithBalanceChanges, ha, ht]
    · simp only [simulateTransactionWithBalanceChanges, ha, ht]
      exact emitFromTotals_sign inp.fetchInfo totals

/-- C3, counterexample.  The claim states that the legacy pipeline's output,
like the versioned one's, includes the target wallet's native delta whenever
nonzero.  On `cxInput3` the wallet's native balance drops by 100 (the pipeline
even computes `solChange = -100`), yet the returned output contains no entry at
all: the computed native delta is dropped. -/
theorem c3_counterexample :
    legacySolChange cxInput3 = -100 ∧
    (simulateTransactionWithBalanceChanges cxInput3).walletBalanceChange.buying = [] ∧
    (simulateTransactionWithBalanceChanges cxInput3).walletBalanceChange.selling = [] ∧
    (simulateTransactionWithBalanceChanges cxInput3).walletBalanceChange.solChange = none :=
  ⟨rfl, rfl, rfl, rfl⟩

/-- C3, amended.  The versioned pipeline does include the merged native delta
whenever it is nonzero (as one SOL entry carrying exactly that figure).  The
legacy pipeline computes the native delta but never emits it: every entry of a
legacy output comes from the per-mint token aggregation of the primary
wallet. -/
theorem c3_theorem (vinp : VersionedInput) (accs : List (Option PostAccount))
    (vout : VersionedOutput)
    (ha : vinp.simResult.accounts = some accs)
    (hok : simulateVersionedTransactionWithBalanceChanges vinp = .ok vout)
    (hnz : versionedMergedSolTotal vinp accs ≠ 0)
    (linp : LegacyInput) (laccs : List (Option PostAccount))
    (hla : linp.simResult.accounts = some laccs) :
    (∃ a ∈ vout.walletBalanceChange.buying ++ vout.walletBalanceChange.selling,
      a.mint = SOL_MINT ∧ a.balanceChange = versionedMergedSolTotal vinp accs) ∧
    (∀ a ∈ (simulateTransactionWithBalanceChanges linp).walletBalanceChange.buying ++
        (simulateTransactionWithBalanceChanges linp).walletBalanceChange.selling,
      ∃ totals, legacyPrimaryTotals linp laccs = some totals ∧
        (a.mint, a.balanceChange) ∈ totals) := by
  constructor
  · simp only [simulateVersionedTransactionWithBalanceChanges, ha, Except.ok.injEq] at hok
    subst hok
    rw [versionedMergedSolTotal] at hnz ⊢
    exact mergeNativeSol_total_mem _ _ _ _ hnz
  · intro a haa
    rcases ht : legacyPrimaryTotals linp laccs with _ | totals
    · simp only [simulateTransactionWithBalanceChanges, hla, ht] at haa
      simp at haa
    · simp only [simulateTransactionWithBalanceChanges, hla, ht] at haa
      exact ⟨totals, rfl, emitFromTotals_mem linp.fetchInfo totals a haa⟩

/-- C6, amended.  In the versioned pipeline, acquired entries have a strictly
positive `balanceChange` and disposed entries a strictly negative one (sign
preserved); in the legacy pipeline acquired entries are strictly positive but
disposed entries are only nonpositive (a zero aggregate is emitted in
`selling`); and the alternative legacy variant stores `Math.abs` of the change
for disposed entries (see the counterexample). -/
theorem c6_theorem (vinp : VersionedInput) (vout : VersionedOutput)
    (hok : simulateVersionedTransactionWithBalanceChanges vinp = .ok vout)
    (linp : LegacyInput) :
    ((∀ a ∈ vout.walletBalanceChange.buying, 0 < a.balanceChange) ∧
     (∀ a ∈ vout.walletBalanceChange.selling, a.balanceChange < 0)) ∧
    ((∀ a ∈ (simulateTransactionWithBalanceChanges linp).walletBalanceChange.buying,
        0 < a.balanceChange) ∧
     (∀ a ∈ (simulateTransactionWithBalanceChanges linp).walletBalanceChange.selling,
        a.balanceChange ≤ 0)) :=
  ⟨versioned_sign vinp vout hok, legacy_sign linp⟩

/-- C7, amended.  Every `AssetDelta` emitted by the versioned pipeline has a
nonzero `rawDelta` (suppression is per token account and for the merged native
figure); the aggregated no-zero-emission property itself fails, since
offsetting per-account entries of one mint are still emitted (see the
counterexample). -/
theorem c7_theorem (vinp : VersionedInput) (vout : VersionedOutput)
    (hok : simulateVersionedTransactionWithBalanceChanges vinp = .ok vout) :
    ∀ a ∈ vout.walletBalanceChange.buying ++ vout.walletBalanceChange.selling,
      a.balanceChange ≠ 0 := by
  obtain ⟨h1, h2⟩ := versioned_sign vinp vout hok
  intro a ha
  rcases List.mem_append.mp ha with h | h
  · have := h1 a h
    omega
  · have := h2 a h
    omega

/-- C8, confirmed.  Conservation, formalised with "no native-currency wrapping
involved" as: no pre-snapshot token record carries the wrapped-native mint, and
the target wallet's direct native delta is zero (otherwise the output itself
would contain a wrapped-native-mint entry).  Under these hypotheses the sum of
all emitted `balanceChange`s over `buying ++ selling` equals the sum of
`postAmount - preAmount` over the wallet's owned token accounts present in
both snapshots, restricted to nonzero terms — in both pipelines (the legacy
half needs no native hypothesis because the legacy pipeline never emits a
native entry). -/
theorem c8_theorem (vinp : VersionedInput) (accs : List (Option PostAccount))
    (vout : VersionedOutput) (linp : LegacyInput) (laccs : List (Option PostAccount))
    (ha : vinp.simResult.accounts = some accs)
    (hok : simulateVersionedTransactionWithBalanceChanges vinp = .ok vout)
    (hnosolV : ∀ p ∈ (versionedPre vinp).2, (p.2 : TokenRecord).mint ≠ SOL_MINT)
    (hdirect : versionedDirectSol vinp accs = 0)
    (hla : linp.simResult.accounts = some laccs)
    (_hnosolL : ∀ p ∈ (legacyPre linp).2, (p.2 : TokenRecord).mint ≠ SOL_MINT) :
    bcSum vout.walletBalanceChange.buying + bcSum vout.walletBalanceChange.selling =
      ownedDeltaSum (targetWalletOf vinp) (versionedPost vinp accs).2 (versionedPre vinp).2 ∧
    bcSum (simulateTransactionWithBalanceChanges linp).walletBalanceChange.buying +
        bcSum (simulateTransactionWithBalanceChanges linp).walletBalanceChange.selling =
      ownedDeltaSum linp.primaryWallet (legacyPost linp laccs).2 (legacyPre linp).2 := by
  constructor
  · simp only [simulateVersionedTransactionWithBalanceChanges, ha, Except.ok.injEq] at hok
    subst hok
    have hmints := tokenDeltasV_mints vinp.fetchInfo (targetWalletOf vinp)
      (versionedPost vinp accs).2 (versionedPre vinp).2
    have hbF : ∀ a ∈ (versionedRawDeltas vinp accs).1, isSolAsset a = false := by
      intro a haa
      obtain ⟨p, hp, hpm⟩ := hmints a (List.mem_append.mpr (Or.inl haa))
      simp only [isSolAsset, hpm, decide_eq_false_iff_not]
      exact hnosolV p hp
    have hsF : ∀ a ∈ (versionedRawDeltas vinp accs).2, isSolAsset a = false := by
      intro a haa
      obtain ⟨p, hp, hpm⟩ := hmints a (List.mem_append.mpr (Or.inr haa))
      simp only [isSolAsset, hpm, decide_eq_false_iff_not]
      exact hnosolV p hp
    have hmerge := mergeNativeSol_no_sol vinp.fetchInfo (versionedDirectSol vinp accs)
      (versionedRawDeltas vinp accs).1 (versionedRawDeltas vinp accs).2 hbF hsF hdirect
    show bcSum (mergeNativeSol vinp.fetchInfo (versionedDirectSol vinp accs)
        (versionedRawDeltas vinp accs).1 (versionedRawDeltas vinp accs).2).1 +
      bcSum (mergeNativeSol vinp.fetchInfo (versionedDirectSol vinp accs)
        (versionedRawDeltas vinp accs).1 (versionedRawDeltas vinp accs).2).2 = _
    rw [hmerge]
    exact tokenDeltasV_sum vinp.fetchInfo (targetWalletOf vinp)
      (versionedPost vinp accs).2 (versionedPre vinp).2
  · have hsum := walletChangesOf_innerSum (legacyPost linp laccs).2 (legacyPre linp).2 []
      linp.primaryWallet
    rcases ht : legacyPrimaryTotals linp laccs with _ | totals
    · have hng : mapGet linp.primaryWallet
          (walletChangesOf (legacyPost linp laccs).2 (legacyPre linp).2 []) = none := ht
      rw [innerOf, hng] at hsum
      simp only [innerOf, mapGet, Option.getD_none, valsSum, List.map_nil,
        List.sum_nil] at hsum
      simp only [simulateTransactionWithBalanceChanges, hla, ht]
      simp only [bcSum, List.map_nil, List.sum_nil]
      omega
    · have hg : mapGet linp.primaryWallet
          (walletChangesOf (legacyPost linp laccs).2 (legacyPre linp).2 []) = some totals := ht
      rw [innerOf, hg] at hsum
      simp only [Option.getD_some] at hsum
      simp only [simulateTransactionWithBalanceChanges, hla, ht]
      show bcSum (emitFromTotals linp.fetchInfo totals).1 +
        bcSum (emitFromTotals linp.fetchInfo totals).2 = _
      rw [emitFromTotals_sum, hsum]
      simp [innerOf, mapGet, valsSum]

/-!  ### Witnesses  -/

/-- A minimal versioned input: no account keys, empty simulation response. -/
def trivialVInput : VersionedInput :=
  { staticAccountKeys := []
    getAccountInfo := fun _ => none
    simResult := { accounts := some [], errIsNull := true }
    fetchInfo := stubInfo }

/-- The output of the versioned pipeline on `trivialVInput`. -/
def trivialVOutput : VersionedOutput :=
  { walletBalanceChange := { wallet := "", buying := [], selling := [], solChange := some 0 }
    success := true }

/-- A minimal legacy input: no accounts, empty simulation response. -/
def trivialLInput : LegacyInput :=
  { primaryWallet := "W"
    instructionAccounts := []
    getAccountInfo := fun _ => none
    simResult := { accounts := some [], errIsNull := true }
    fetchInfo := stubInfo }

/-- A versioned input whose simulation response has no accounts array. -/
def cxInput4V : VersionedInput :=
  { staticAccountKeys := ["W"]
    getAccountInfo := fun a => if a = "W" then some (sysPre 1000) else none
    simResult := { accounts := none, errIsNull := true }
    fetchInfo := stubInfo }

/-- The versioned output on `cxInput5`, named via `toOption` so that it can be
used as a concrete instantiation without normalising its display fields. -/
def vout5 : VersionedOutput :=
  ((simulateVersionedTransactionWithBalanceChanges cxInput5).toOption).getD
    { walletBalanceChange := { wallet := "", buying := [], selling := [], solChange := none }
      success := false }

/-- A successful remote metadata response used by the C9 witness. -/
def jupOk : JupResponse :=
  { logoURI := some "https://x/logo.png", decimals := some 6, symbol := some "TOK",
    name := some "Token" }

/-- A remote collaborator whose requests always throw. -/
def remoteFail : String → Option JupResponse := fun _ => none

/-- A remote collaborator whose requests always succeed with `jupOk`. -/
def remoteOk : String → Option JupResponse := fun _ => some jupOk

/-- Witness for C2's amended theorem at `trivialVInput`. -/
theorem c2_witness :
    solCount (trivialVOutput.walletBalanceChange.buying ++
      trivialVOutput.walletBalanceChange.selling) ≤ 1 ∧
    (versionedDirectSol trivialVInput [] + solBcSum (versionedRawDeltas trivialVInput []).1 +
        solBcSum (versionedRawDeltas trivialVInput []).2 = 0 →
      solCount (trivialVOutput.walletBalanceChange.buying ++
        trivialVOutput.walletBalanceChange.selling) = 0) :=
  c2_theorem trivialVInput [] trivialVOutput rfl rfl (by decide) (by decide)

/-- Witness for C3's amended theorem at `cxInput5` (nonzero native total) and
`cxInput3` (legacy run). -/
theorem c3_witness :
    (∃ a ∈ vout5.walletBalanceChange.buying ++ vout5.walletBalanceChange.selling,
      a.mint = SOL_MINT ∧ a.balanceChange = versionedMergedSolTotal cxInput5 [none]) ∧
    (∀ a ∈ (simulateTransactionWithBalanceChanges cxInput3).walletBalanceChange.buying ++
        (simulateTransactionWithBalanceChanges cxInput3).walletBalanceChange.selling,
      ∃ totals, legacyPrimaryTotals cxInput3 [some (sysPost 900)] = some totals ∧
        (a.mint, a.balanceChange) ∈ totals) :=
  c3_theorem cxInput5 [none] vout5 rfl rfl (by decide) cxInput3 [some (sysPost 900)] rfl

/-- Witness for C4's amended theorem at `cxInput4V` and `cxInput4`. -/
theorem c4_witness :
    simulateVersionedTransactionWithBalanceChanges cxInput4V =
      .error "Simulation did not return account data. This may be due to an error in the transaction." ∧
    simulateTransactionWithBalanceChanges cxInput4 =
      { walletBalanceChange :=
          { wallet := cxInput4.primaryWallet, buying := [], selling := [], solChange := some 0 }
        success := false } :=
  c4_theorem cxInput4V cxInput4 rfl rfl

/-- Witness for C5's amended theorem at concrete snapshots with a `null`
post-simulation entry. -/
theorem c5_witness :
    tokenDeltasV stubInfo "W" []
        (([("t", ⟨"MintM", 5, "W"⟩)] : List (String × TokenRecord)).filter
          (fun p => (mapGet p.1 ([] : List (String × TokenRecord))).isSome)) =
      tokenDeltasV stubInfo "W" [] [("t", ⟨"MintM", 5, "W"⟩)] ∧
    (collectPostV [] [none] ["W"] 0).1 = ("W", 0) :: (collectPostV [] [none] [] 1).1 :=
  c5_theorem stubInfo "W" [] [("t", ⟨"MintM", 5, "W"⟩)] [] [none] "W" [] 0 rfl

/-- Witness for C6's amended theorem at `trivialVInput` and `trivialLInput`. -/
theorem c6_witness :
    ((∀ a ∈ trivialVOutput.walletBalanceChange.buying, 0 < a.balanceChange) ∧
     (∀ a ∈ trivialVOutput.walletBalanceChange.selling, a.balanceChange < 0)) ∧
    ((∀ a ∈ (simulateTransactionWithBalanceChanges trivialLInput).walletBalanceChange.buying,
        0 < a.balanceChange) ∧
     (∀ a ∈ (simulateTransactionWithBalanceChanges trivialLInput).walletBalanceChange.selling,
        a.balanceChange ≤ 0)) :=
  c6_theorem trivialVInput trivialVOutput rfl trivialLInput

/-- Witness for C7's amended theorem at `trivialVInput`. -/
theorem c7_witness :
    (∀ a ∈ trivialVOutput.walletBalanceChange.buying, a.balanceChange ≠ 0) ∧
    (∀ a ∈ trivialVOutput.walletBalanceChange.selling, a.balanceChange ≠ 0) := by
  have h := c7_theorem trivialVInput trivialVOutput rfl
  exact ⟨fun a ha => h a (List.mem_append.mpr (Or.inl ha)),
    fun a ha => h a (List.mem_append.mpr (Or.inr ha))⟩

/-- Witness for C8's conservation theorem at `trivialVInput` and
`trivialLInput`. -/
theorem c8_witness :
    bcSum trivialVOutput.walletBalanceChange.buying +
        bcSum trivialVOutput.walletBalanceChange.selling =
      ownedDeltaSum (targetWalletOf trivialVInput) (versionedPost trivialVInput []).2
        (versionedPre trivialVInput).2 ∧
    bcSum (simulateTransactionWithBalanceChanges trivialLInput).walletBalanceChange.buying +
        bcSum (simulateTransactionWithBalanceChanges trivialLInput).walletBalanceChange.selling =
      ownedDeltaSum trivialLInput.primaryWallet (legacyPost trivialLInput []).2
        (legacyPre trivialLInput).2 :=
  c8_theorem trivialVInput [] trivialVOutput trivialLInput [] rfl rfl (by decide) (by decide)
    rfl (by decide)

/-- Witness for C9's theorem at a failing and a succeeding remote collaborator
with an empty cache. -/
theorem c9_witness :
    (remoteFail "MintM" = none →
      fetchTokenInfo remoteFail [] "MintM" = (defaultTokenInfoFor "MintM", [])) ∧
    (∀ r, remoteFail "MintM" = some r →
      fetchTokenInfo remoteFail [] "MintM" =
        (tokenInfoOfResponse r, mapSet "MintM" (tokenInfoOfResponse r) [])) ∧
    (remoteFail "MintM" = none → ∀ r2, remoteOk "MintM" = some r2 →
      fetchTokenInfo remoteOk (fetchTokenInfo remoteFail [] "MintM").2 "MintM" =
        (tokenInfoOfResponse r2, mapSet "MintM" (tokenInfoOfResponse r2) [])) ∧
    (∀ r, remoteFail "MintM" = some r → ∀ m2,
      fetchTokenInfo remoteOk (fetchTokenInfo remoteFail [] "MintM").2 m2 =
        fetchTokenInfo remoteOk (mapSet "MintM" (tokenInfoOfResponse r) []) m2) :=
  c9_theorem remoteFail remoteOk [] "MintM" (by decide) rfl

/-- Witness for C10's theorem at `cxInput1`. -/
theorem c10_witness :
    (∀ addr, (mapGet addr (versionedPost cxInput1
        [some (sysPost 5), some (tokPost "MintM" 1500 "W"), some (tokPost "MintM" 500 "W")]).2).isSome =
          true →
      (mapGet addr (versionedPre cxInput1).2).isSome = true) ∧
    (∀ a ∈ (versionedRawDeltas cxInput1
        [some (sysPost 5), some (tokPost "MintM" 1500 "W"), some (tokPost "MintM" 500 "W")]).1 ++
        (versionedRawDeltas cxInput1
        [some (sysPost 5), some (tokPost "MintM" 1500 "W"), some (tokPost "MintM" 500 "W")]).2,
      ∃ p ∈ (versionedPre cxInput1).2, a.mint = (p.2 : TokenRecord).mint) :=
  c10_theorem cxInput1
    [some (sysPost 5), some (tokPost "MintM" 1500 "W"), some (tokPost "MintM" 500 "W")]
